import Mathlib

/-!
# RocketMLGO `rocketDataFrame.go`: a shallow embedding and its properties

The Go package `rocketc` stores CSV-shaped data as `[][]string` and offers a
handful of structural transformations over it.  This development embeds those
functions in Lean and proves (or refutes) statements about them.

Modelling conventions.

* A Go slice is a Lean `List`; a `nil` slice and an empty slice are both `[]`.
* A Go `int` is an `Int`.  The only additions on `int` values supplied by a
  caller are `f(i)+1` and `arr[value]++` in `DropColumn`; both wrap around at
  64 bits (`wrapInt64`).  Lengths and loop counters are natural numbers, and
  `d.Rows()+1` in `SetHeaders`, one more than a slice length, is taken exactly.
* A run-time panic is an `Except.error` carrying a `Fault`.  Functions that can
  panic return `Except Fault _`; a function that in addition returns a Go
  `error` value returns `Except Fault (Except ε _)`, the inner `Except.error e`
  standing for the pair `(nil, e)`.
* A counted loop `for i := a; i < a + k; i++` is `forLoop body k a`, which
  recurses on the number `k` of iterations still to run, so every loop is total.
* `make` panics on a negative length and on a length whose byte size exceeds
  the runtime's allocation limit `maxAlloc`; both are modelled (`makeSlice`).
  An `int` that reaches `make` carries its origin (`Size`): one supplied by a
  caller, or computed from what a caller supplied, is checked against both
  bounds; the length of a slice the program already holds is taken to be
  within the limit.
  The platform is 64-bit Linux: `int` has 64 bits and `maxAlloc` is `2^48`.
* Running out of memory on an allocation that `make` accepts ends the process
  with a fatal error; that is not modelled.
-/

namespace rocketc

/-- Run-time panics of the Go runtime that the package can raise. -/
inductive Fault where
  /-- A panic `runtime error: index out of range`. -/
  | indexOutOfRange
  /-- A panic `runtime error: slice bounds out of range`. -/
  | sliceBounds
  /-- A panic `runtime error: makeslice: len out of range`. -/
  | makeSliceLen
deriving DecidableEq, Repr

/-- The type `DataFrame` of the source: `type DataFrame [][]string`. -/
abbrev DataFrame := List (List String)

/-- Modelled from the spec: the type `Matrix` is declared outside
`rocketDataFrame.go`; the specification describes it as an ordered sequence of
rows of floating-point cells.  The cell type is a parameter. -/
abbrev Matrix (β : Type) := List (List β)

/-- Two's-complement wrap-around of a mathematical integer to a Go `int`. -/
def wrapInt64 (x : Int) : Int :=
  (x + 9223372036854775808) % 18446744073709551616 - 9223372036854775808

/-- Read `xs[i]` for a loop counter `i`. -/
def elemAt {α : Type} (xs : List α) (i : Nat) : Except Fault α :=
  match xs[i]? with
  | some x => .ok x
  | none => .error .indexOutOfRange

/-- Write `xs[i] = v` for a loop counter `i`. -/
def putAt {α : Type} (xs : List α) (i : Nat) (v : α) : Except Fault (List α) :=
  if i < xs.length then .ok (xs.set i v) else .error .indexOutOfRange

/-- Read `xs[v]` for a caller-supplied `int`. -/
def index {α : Type} (xs : List α) (v : Int) : Except Fault α :=
  if v < 0 then .error .indexOutOfRange else elemAt xs v.toNat

/-- Write `xs[v] = x` for a caller-supplied `int`. -/
def setIndex {α : Type} (xs : List α) (v : Int) (x : α) : Except Fault (List α) :=
  if v < 0 then .error .indexOutOfRange else putAt xs v.toNat x

/-- The limit `maxAlloc` of the Go runtime on the byte size of one allocation:
`2^48` on 64-bit Linux. -/
def maxAlloc : Nat := 281474976710656

/-- An `int` that reaches `make` as a length, with where it comes from:
`ofInt v` is an `int` a caller supplied or the code computed from one (the
arguments of a direct call of `Allocate`, `f(i)+1` in `DropColumn`); `ofLen n`
is the length of a slice the program already holds (`len(d)`, `d.Rows()`,
`len(i)`), or one more than such a length in `SetHeaders`. -/
inductive Size where
  /-- A caller-supplied or computed `int`. -/
  | ofInt (v : Int)
  /-- The length of a slice that exists. -/
  | ofLen (n : Nat)
deriving DecidableEq, Repr

/-- The number of iterations of `for i := 0; i < n; i++`. -/
def Size.toNat : Size → Nat
  | .ofInt v => v.toNat
  | .ofLen n => n

/-- The builtin `make([]T, n)` for elements of `elemSize` bytes (8 for `int`, 16
for `string`, 24 for `[]string`): `n` copies of the zero value.  The runtime
panics with "makeslice: len out of range" when `n` is negative or `n` times
`elemSize` overflows or exceeds `maxAlloc`; the product is taken in the integers,
so that exceeding `maxAlloc` covers the overflow. -/
def makeSlice {α : Type} (elemSize : Nat) (zero : α) (n : Size) : Except Fault (List α) :=
  match n with
  | .ofLen k => .ok (List.replicate k zero)
  | .ofInt v =>
    if v < 0 ∨ (maxAlloc : Int) < v * (elemSize : Int) then .error .makeSliceLen
    else .ok (List.replicate v.toNat zero)

/-- The loop `for i := a; i < a + k; i++ { s = body(i, s) }`. -/
def forLoop {σ : Type} (body : Nat → σ → Except Fault σ) : Nat → Nat → σ → Except Fault σ
  | 0, _, s => .ok s
  | k + 1, i, s => do
    let s' ← body i s
    forLoop body k (i + 1) s'

/-- Source: `func (d DataFrame) Rows() int`. -/
def Rows (d : DataFrame) : Int := d.length

/-- Source: `func (d DataFrame) Cols() int`. -/
def Cols (d : DataFrame) : Int :=
  match d with
  | [] => 0
  | row0 :: _ => row0.length

/-- Source: `func (d DataFrame) Shape() []int`. -/
def Shape (d : DataFrame) : List Int :=
  let size : List Int := List.replicate 2 0
  let size := size.set 0 (Rows d)
  let size := size.set 1 (Cols d)
  size

/-- Source: `func (d DataFrame) Headers() []string`. -/
def Headers (d : DataFrame) : Except Fault (List String) :=
  elemAt d 0

/-- The slice expression `xs[0:hi]`.  The upper bound Go checks is the capacity;
here it is the length, and `Head` only evaluates the expression with
`hi <= len(xs)`. -/
def sliceTo {α : Type} (xs : List α) (hi : Int) : Except Fault (List α) :=
  if hi < 0 ∨ (xs.length : Int) < hi then .error .sliceBounds else .ok (xs.take hi.toNat)

/-- Source: `func (d DataFrame) Head(n int) DataFrame`. -/
def Head (d : DataFrame) (n : Int) : Except Fault DataFrame :=
  if n ≤ (d.length : Int) then
    sliceTo d n
  else
    .ok d

/-- Source: `func Allocate(row, col int) DataFrame`.  A caller passes its two
`int`s as `Size.ofInt`. -/
def Allocate (row col : Size) : Except Fault DataFrame := do
  let d ← makeSlice 24 ([] : List String) row
  forLoop (fun i d => do
    let r ← makeSlice 16 "" col
    putAt d i r) row.toNat 0 d

/-- Source: `func (d *DataFrame) SetHeaders(header []string)`.  The result is the
table the receiver points to after the call.  `d.Rows()+1` is one more than a
slice length and does not wrap. -/
def SetHeaders (d : DataFrame) (header : List String) : Except Fault DataFrame := do
  let newDataFrame ← Allocate (.ofLen (Rows d + 1).toNat) (.ofLen header.length)
  let newDataFrame ← putAt newDataFrame 0 header
  let r := Rows newDataFrame
  forLoop (fun i newDataFrame => do
    let di ← elemAt d (i - 1)
    putAt newDataFrame i di) (r.toNat - 1) 1 newDataFrame

/-- Source: `func WipeDown(m DataFrame, l int) DataFrame`. -/
def WipeDown (m : DataFrame) (l : Int) : Except Fault DataFrame :=
  let r : DataFrame := []
  let n := Rows m
  forLoop (fun i r => do
    let value ← elemAt m i
    if (value.length : Int) = l then
      pure (r ++ [value])
    else
      pure r) n.toNat 0 r

/-- The closure `f` of `DropColumn`: the maximum of a non-empty slice. -/
def DropColumn.f (arr : List Int) : Except Fault Int := do
  let max ← elemAt arr 0
  pure (arr.foldl (fun max value => if value > max then value else max) max)

/-- The inner loop of `DropColumn`, `for i := i0; i < i0 + k; i++`, with its
`break`. -/
def DropColumn.inner (d : DataFrame) (arr : List Int) (j : Nat) :
    Nat → Nat → DataFrame → Except Fault DataFrame
  | 0, _, result => .ok result
  | k + 1, i, result => do
    let a ← elemAt arr j
    if a > 0 then
      .ok result
    else
      let ri ← elemAt result i
      let di ← elemAt d i
      let dij ← elemAt di j
      let result ← putAt result i (ri ++ [dij])
      DropColumn.inner d arr j k (i + 1) result

/-- Source: `func DropColumn(d DataFrame, i ...int) DataFrame`. -/
def DropColumn (d : DataFrame) (i : List Int) : Except Fault DataFrame := do
  let result ← makeSlice 24 ([] : List String) (.ofLen d.length)
  let max ← DropColumn.f i
  let arr ← makeSlice 8 (0 : Int) (.ofInt (wrapInt64 (max + 1)))
  let arr ← i.foldlM (fun arr value => do
    let a ← index arr value
    setIndex arr value (wrapInt64 (a + 1))) arr
  let d0 ← elemAt d 0
  forLoop (fun j result => DropColumn.inner d arr j d.length 0 result) d0.length 0 result

/-- Modelled from the spec: `Zeros` is defined outside `rocketDataFrame.go`; it
is taken to return the `r`-by-`c` matrix whose cells are all zero.  Its
arguments here are always a row count and a column count. -/
def Zeros {β : Type} (zero : β) (r c : Nat) : Matrix β :=
  List.replicate r (List.replicate c zero)

/-- The inner loop of `ConvMatrix`, `for j := j0; j < j0 + k; j++`, with its
early `return nil, err`. -/
def ConvMatrix.cols {ε α β : Type} (parseFloat : String → Except ε α) (float32 : α → β)
    (d : DataFrame) (i : Nat) : Nat → Nat → Matrix β → Except Fault (Except ε (Matrix β))
  | 0, _, m => .ok (.ok m)
  | k + 1, j, m => do
    let di ← elemAt d i
    let dij ← elemAt di j
    match parseFloat dij with
    | .error err => .ok (.error err)
    | .ok temp =>
      let mi ← elemAt m i
      let mi ← putAt mi j (float32 temp)
      let m ← putAt m i mi
      ConvMatrix.cols parseFloat float32 d i k (j + 1) m

/-- The outer loop of `ConvMatrix`, `for i := i0; i < i0 + k; i++`. -/
def ConvMatrix.rows {ε α β : Type} (parseFloat : String → Except ε α) (float32 : α → β)
    (d : DataFrame) (c : Nat) : Nat → Nat → Matrix β → Except Fault (Except ε (Matrix β))
  | 0, _, m => .ok (.ok m)
  | k + 1, i, m => do
    match ← ConvMatrix.cols parseFloat float32 d i c 0 m with
    | .error err => .ok (.error err)
    | .ok m => ConvMatrix.rows parseFloat float32 d c k (i + 1) m

/-- Source: `func ConvMatrix(d DataFrame) (Matrix, error)`.  The parser
`strconv.ParseFloat(_, 64)`, the narrowing `float32(_)` and the zero of the
matrix cell type are parameters. -/
def ConvMatrix {ε α β : Type} (parseFloat : String → Except ε α) (float32 : α → β) (zero : β)
    (d : DataFrame) : Except Fault (Except ε (Matrix β)) :=
  let m := Zeros zero (Rows d).toNat (Cols d).toNat
  let r := Rows d
  let c := Cols d
  ConvMatrix.rows parseFloat float32 d c.toNat r.toNat 0 m

/-- Source: `func GetColumnsDataFrame(d DataFrame, i ...int) DataFrame`. -/
def GetColumnsDataFrame (d : DataFrame) (i : List Int) : Except Fault DataFrame := do
  let c ← Allocate (.ofLen (Rows d).toNat) (.ofLen i.length)
  forLoop (fun row c => do
    let value ← elemAt d row
    forLoop (fun idx c => do
      let v ← elemAt i idx
      let crow ← elemAt c row
      let x ← index value v
      let crow ← putAt crow idx x
      putAt c row crow) i.length 0 c) d.length 0 c

/-- Closed form of the parsing done by the inner loop of `ConvMatrix`: the cells
are parsed and narrowed from left to right, and the first cell the parser
rejects ends the pass with the parser's error. -/
def ConvMatrix.parseCells {ε α β : Type} (parseFloat : String → Except ε α) (float32 : α → β) :
    List String → Except ε (List β)
  | [] => .ok []
  | s :: rest =>
    match parseFloat s with
    | .error err => .error err
    | .ok temp =>
      match ConvMatrix.parseCells parseFloat float32 rest with
      | .error err => .error err
      | .ok vals => .ok (float32 temp :: vals)

/-- Closed form of the inner loop of `ConvMatrix` on one row, for a column
count `c`: the first `c` cells are parsed; a parse error among them is returned,
and otherwise a row with fewer than `c` cells is an index out of range.  The
loops are proved equal to it in `ConvMatrix.cols_eq`. -/
def ConvMatrix.rowOutcome {ε α β : Type} (parseFloat : String → Except ε α) (float32 : α → β)
    (c : Nat) (row : List String) : Except Fault (Except ε (List β)) :=
  match ConvMatrix.parseCells parseFloat float32 (row.take c) with
  | .error err => .ok (.error err)
  | .ok vals => if row.length < c then .error .indexOutOfRange else .ok (.ok vals)

/-- Closed form of the outer loop of `ConvMatrix`, for a column count `c`: the
rows are converted from top to bottom and the first row that does not convert
decides the outcome.  `ConvMatrix_eq_tableOutcome` proves that `ConvMatrix`
computes it. -/
def ConvMatrix.tableOutcome {ε α β : Type} (parseFloat : String → Except ε α)
    (float32 : α → β) (c : Nat) : DataFrame → Except Fault (Except ε (Matrix β))
  | [] => .ok (.ok [])
  | row :: rest =>
    match ConvMatrix.rowOutcome parseFloat float32 c row with
    | .error f => .error f
    | .ok (.error err) => .ok (.error err)
    | .ok (.ok vals) =>
      match ConvMatrix.tableOutcome parseFloat float32 c rest with
      | .error f => .error f
      | .ok (.error err) => .ok (.error err)
      | .ok (.ok m) => .ok (.ok (vals :: m))

/-- A parser for examples: it accepts the one-digit decimal numerals and
rejects every other text, reporting the rejected text. -/
def parseDigit (s : String) : Except String Int :=
  if s = "0" then .ok 0
  else if s = "1" then .ok 1
  else if s = "2" then .ok 2
  else if s = "3" then .ok 3
  else if s = "4" then .ok 4
  else if s = "5" then .ok 5
  else if s = "6" then .ok 6
  else if s = "7" then .ok 7
  else if s = "8" then .ok 8
  else if s = "9" then .ok 9
  else .error s

/-- Closed form of one row of the result of `DropColumn`: the cells of `row` at
the positions below `n` that do not occur in `i`, from left to right. -/
def DropColumn.keep (i : List Int) (n : Nat) (row : List String) : List String :=
  ((List.range n).filter (fun j : Nat => decide ((j : Int) ∉ i))).map
    (fun j : Nat => (row[j]?).getD "")

/-- The cell `(r, k)` of a table, if there is one. -/
def cell (d : DataFrame) (r k : Nat) : Option String :=
  (d[r]?).bind (fun row => row[k]?)

deriving instance DecidableEq for Except

/-! ## Basic facts about the primitives -/

theorem elemAt_of_lt {α : Type} (xs : List α) (i : Nat) (h : i < xs.length) :
    elemAt xs i = .ok xs[i] := by
  simp [elemAt, List.getElem?_eq_getElem h]

theorem elemAt_of_le {α : Type} (xs : List α) (i : Nat) (h : xs.length ≤ i) :
    elemAt xs i = .error .indexOutOfRange := by
  simp [elemAt, List.getElem?_eq_none h]

theorem elemAt_of_getElem? {α : Type} (xs : List α) (i : Nat) (x : α) (h : xs[i]? = some x) :
    elemAt xs i = .ok x := by
  simp [elemAt, h]

theorem putAt_of_lt {α : Type} (xs : List α) (i : Nat) (v : α) (h : i < xs.length) :
    putAt xs i v = .ok (xs.set i v) := by
  simp [putAt, h]

theorem ok_bind {ε α β : Type} (a : α) (f : α → Except ε β) :
    (Except.ok a >>= f) = f a := rfl

theorem error_bind {ε α β : Type} (e : ε) (f : α → Except ε β) :
    ((Except.error e : Except ε α) >>= f) = .error e := rfl

theorem forLoop_zero {σ : Type} (body : Nat → σ → Except Fault σ) (i : Nat) (s : σ) :
    forLoop body 0 i s = .ok s := rfl

theorem forLoop_succ {σ : Type} (body : Nat → σ → Except Fault σ) (k i : Nat) (s : σ) :
    forLoop body (k + 1) i s = (body i s >>= fun s' => forLoop body k (i + 1) s') := rfl

theorem makeSlice_ofLen {α : Type} (elemSize : Nat) (zero : α) (k : Nat) :
    makeSlice elemSize zero (.ofLen k) = .ok (List.replicate k zero) := rfl

theorem makeSlice_of_fits {α : Type} (elemSize : Nat) (zero : α) (n : Int) (h : 0 ≤ n)
    (hfit : n * (elemSize : Int) ≤ (maxAlloc : Int)) :
    makeSlice elemSize zero (.ofInt n) = .ok (List.replicate n.toNat zero) := by
  have : ¬ (n < 0 ∨ (maxAlloc : Int) < n * (elemSize : Int)) := by omega
  simp only [makeSlice, this, if_false]

theorem makeSlice_of_outOfRange {α : Type} (elemSize : Nat) (zero : α) (n : Int)
    (h : n < 0 ∨ (maxAlloc : Int) < n * (elemSize : Int)) :
    makeSlice elemSize zero (.ofInt n) = .error .makeSliceLen := by
  simp only [makeSlice, h, if_true]

theorem take_succ_set {α : Type} (l : List α) (i : Nat) (a : α) (h : i < l.length) :
    (l.set i a).take (i + 1) = l.take i ++ [a] := by
  rw [List.take_succ, List.getElem?_set_self h, List.set_take,
    List.set_eq_of_length_le (by simp)]
  rfl

theorem set_of_getElem? {α : Type} (l : List α) (i : Nat) (a : α) (h : l[i]? = some a) :
    l.set i a = l := by
  apply List.ext_getElem?
  intro n
  by_cases hn : i = n
  · subst hn
    rw [List.getElem?_set_self' , h]
    simp
  · rw [List.getElem?_set_ne hn]

/-! ## `WipeDown` -/

theorem WipeDown.loop_filter (m : DataFrame) (l : Int) :
    ∀ (k i : Nat) (r : DataFrame), i + k ≤ m.length →
      forLoop (fun i r => do
        let value ← elemAt m i
        if (value.length : Int) = l then
          pure (r ++ [value])
        else
          pure r) k i r
        = .ok (r ++ ((m.drop i).take k).filter (fun v => decide ((v.length : Int) = l))) := by
  intro k
  induction k with
  | zero => intro i r _; simp [forLoop_zero]
  | succ k ih =>
    intro i r h
    have hi : i < m.length := by omega
    rw [forLoop_succ, elemAt_of_lt m i hi, ok_bind, List.drop_eq_getElem_cons hi,
      List.take_succ_cons]
    by_cases hl : (m[i].length : Int) = l
    · rw [if_pos hl]
      show forLoop _ k (i + 1) (r ++ [m[i]]) = _
      rw [ih (i + 1) (r ++ [m[i]]) (by omega)]
      simp [List.filter_cons, hl]
    · rw [if_neg hl]
      show forLoop _ k (i + 1) r = _
      rw [ih (i + 1) r (by omega)]
      simp [List.filter_cons, hl]

theorem WipeDown_eq_filter (m : DataFrame) (l : Int) :
    WipeDown m l = .ok (m.filter (fun v => decide ((v.length : Int) = l))) := by
  unfold WipeDown
  simp only [Rows, Int.toNat_ofNat]
  rw [WipeDown.loop_filter m l m.length 0 [] (by omega)]
  simp

/-- C1: `WipeDown(t, w)` always returns, and what it returns is the
sub-sequence of the rows of `t` whose cell count is `w`, in their original
order: every returned row has length `w`, every row of `t` of length `w` is kept
with its multiplicity, no row of another length is returned, and when no row
matches the result is the empty table. -/
theorem WipeDown_spec (t : DataFrame) (w : Int) :
    ∃ res : DataFrame, WipeDown t w = .ok res ∧
      res = t.filter (fun row => decide ((row.length : Int) = w)) ∧
      (∀ row ∈ res, (row.length : Int) = w) ∧
      res.Sublist t ∧
      (∀ row : List String, (row.length : Int) = w → res.count row = t.count row) ∧
      (∀ row ∈ t, (row.length : Int) ≠ w → row ∉ res) ∧
      ((∀ row ∈ t, (row.length : Int) ≠ w) → res = []) := by
  refine ⟨_, WipeDown_eq_filter t w, rfl, ?_, List.filter_sublist t, ?_, ?_, ?_⟩
  · intro row hrow
    simpa using (List.mem_filter.mp hrow).2
  · intro row hrow
    rw [List.count_filter]
    simpa using hrow
  · intro row _ hne hmem
    exact hne (by simpa using (List.mem_filter.mp hmem).2)
  · intro hall
    rw [List.filter_eq_nil_iff]
    intro row hrow
    simpa using hall row hrow

/-! ## `Allocate` -/

theorem Allocate.loop_fill (col : Size) (n : Nat)
    (hcol : makeSlice 16 "" col = .ok (List.replicate n "")) :
    ∀ (k i : Nat) (d : DataFrame), i + k ≤ d.length →
      forLoop (fun i d => do
        let r ← makeSlice 16 "" col
        putAt d i r) k i d
        = .ok (d.take i ++ List.replicate k (List.replicate n "") ++ d.drop (i + k)) := by
  intro k
  induction k with
  | zero => intro i d _; simp [forLoop_zero]
  | succ k ih =>
    intro i d h
    have hi : i < d.length := by omega
    rw [forLoop_succ]
    have hstep : (do
        let r ← makeSlice 16 "" col
        putAt d i r) = Except.ok (d.set i (List.replicate n "")) := by
      rw [hcol, ok_bind, putAt_of_lt _ _ _ hi]
    rw [hstep, ok_bind, ih (i + 1) _ (by simp only [List.length_set]; omega),
      take_succ_set d i _ hi, List.drop_set_of_lt _ _ (by omega), List.replicate_succ]
    have : i + 1 + k = i + (k + 1) := by omega
    rw [this]
    simp

theorem Allocate_ofLen (r n : Nat) :
    Allocate (.ofLen r) (.ofLen n) = .ok (List.replicate r (List.replicate n "")) := by
  unfold Allocate
  rw [makeSlice_ofLen, ok_bind]
  show forLoop _ r 0 _ = _
  rw [Allocate.loop_fill (.ofLen n) n (makeSlice_ofLen 16 "" n) r 0 _ (by simp)]
  simp

theorem Allocate_of_fits (row col : Int) (hr : 0 ≤ row) (hc : 0 ≤ col)
    (hrfit : row * 24 ≤ (maxAlloc : Int)) (hcfit : row = 0 ∨ col * 16 ≤ (maxAlloc : Int)) :
    Allocate (.ofInt row) (.ofInt col)
      = .ok (List.replicate row.toNat (List.replicate col.toNat "")) := by
  unfold Allocate
  rw [makeSlice_of_fits 24 _ row hr (by simpa using hrfit), ok_bind]
  show forLoop _ row.toNat 0 _ = _
  rcases hcfit with h0 | hcfit
  · subst h0
    rfl
  · rw [Allocate.loop_fill (.ofInt col) col.toNat
      (makeSlice_of_fits 16 "" col hc (by simpa using hcfit)) row.toNat 0 _ (by simp)]
    simp

theorem Allocate_of_outOfRange (row col : Int)
    (h : row < 0 ∨ (maxAlloc : Int) < row * 24 ∨
      (row ≠ 0 ∧ (col < 0 ∨ (maxAlloc : Int) < col * 16))) :
    Allocate (.ofInt row) (.ofInt col) = .error .makeSliceLen := by
  unfold Allocate
  by_cases hr : row < 0 ∨ (maxAlloc : Int) < row * 24
  · rw [makeSlice_of_outOfRange 24 _ row (by simpa using hr)]
    rfl
  · have hc : row ≠ 0 ∧ (col < 0 ∨ (maxAlloc : Int) < col * 16) := by
      rcases h with h | h | h
      · exact absurd (Or.inl h) hr
      · exact absurd (Or.inr h) hr
      · exact h
    rw [makeSlice_of_fits 24 _ row (by omega) (by simp; omega), ok_bind]
    show forLoop _ row.toNat 0 _ = _
    obtain ⟨k, hk⟩ : ∃ k : Nat, row.toNat = k + 1 := ⟨row.toNat - 1, by omega⟩
    rw [hk, forLoop_succ, makeSlice_of_outOfRange 16 "" col (by simpa using hc.2)]
    rfl

/-- C10 (as amended): for `r ≥ 0` and `c ≥ 0` within the allocation limit of
`make` (`24 * r ≤ maxAlloc` for the `r` row headers and, unless `r = 0`,
`16 * c ≤ maxAlloc` for the `c` strings of a row), `Allocate(r, c)` returns a
table of exactly `r` rows, each of exactly `c` cells, every cell the empty
string; its `Shape()` is `(r, c)` when `r ≥ 1` and `(0, 0)` when `r = 0`.
Beyond the limit `Allocate` panics with "makeslice: len out of range". -/
theorem Allocate_shape (r c : Int) (hr : 0 ≤ r) (hc : 0 ≤ c) :
    (r * 24 ≤ (maxAlloc : Int) → (r = 0 ∨ c * 16 ≤ (maxAlloc : Int)) →
      ∃ d : DataFrame, Allocate (.ofInt r) (.ofInt c) = .ok d ∧
        Rows d = r ∧
        (∀ row ∈ d, (row.length : Int) = c ∧ ∀ x ∈ row, x = "") ∧
        Shape d = [r, if r = 0 then 0 else c]) ∧
      (((maxAlloc : Int) < r * 24 ∨ (r ≠ 0 ∧ (maxAlloc : Int) < c * 16)) →
        Allocate (.ofInt r) (.ofInt c) = .error .makeSliceLen) := by
  constructor
  · intro hrfit hcfit
    refine ⟨_, Allocate_of_fits r c hr hc hrfit hcfit, ?_, ?_, ?_⟩
    · simp [Rows, Int.toNat_of_nonneg hr]
    · intro row hrow
      obtain ⟨_, rfl⟩ := List.mem_replicate.mp hrow
      refine ⟨by simp [Int.toNat_of_nonneg hc], ?_⟩
      intro x hx
      exact (List.mem_replicate.mp hx).2
    · obtain ⟨n, rfl⟩ := Int.eq_ofNat_of_zero_le hr
      cases n with
      | zero => simp [Shape, Rows, Cols]
      | succ n =>
        have : ((n + 1 : Nat) : Int) ≠ 0 := by omega
        simp [Shape, Rows, Cols, List.replicate_succ, Int.toNat_of_nonneg hc]
        omega
  · intro h
    apply Allocate_of_outOfRange
    rcases h with h | h
    · exact Or.inr (Or.inl h)
    · exact Or.inr (Or.inr ⟨h.1, Or.inr h.2⟩)

/-- Witness for `Allocate_shape` at `Allocate(2, 3)`. -/
theorem Allocate_shape_witness :
    ∃ d : DataFrame, Allocate (.ofInt 2) (.ofInt 3) = .ok d ∧
      Rows d = 2 ∧
      (∀ row ∈ d, (row.length : Int) = 3 ∧ ∀ x ∈ row, x = "") ∧
      Shape d = [2, if (2 : Int) = 0 then 0 else 3] :=
  (Allocate_shape 2 3 (by decide) (by decide)).1 (by decide) (Or.inr (by decide))

/-- C10 (counterexample): `Allocate(0, 1)` is the table with no rows, and the
shape of that table is `(0, 0)`, not `(0, 1)`; and `Allocate(2^62, 0)` returns
no table at all, because `make` refuses the `2^62` row headers. -/
theorem Allocate_zero_rows_shape :
    Allocate (.ofInt 0) (.ofInt 1) = .ok [] ∧ Shape ([] : DataFrame) = [0, 0] ∧
      (¬ ∃ d : DataFrame, Allocate (.ofInt 0) (.ofInt 1) = .ok d ∧ Shape d = [0, 1]) ∧
      Allocate (.ofInt 4611686018427387904) (.ofInt 0) = .error .makeSliceLen := by
  refine ⟨by decide, by decide, ?_, by decide⟩
  rintro ⟨d, hd, hs⟩
  have h0 : Allocate (.ofInt 0) (.ofInt 1) = .ok [] := by decide
  rw [h0] at hd
  injection hd with hd
  subst hd
  revert hs
  decide

/-! ## `GetColumnsDataFrame` -/

theorem GetColumnsDataFrame.inner_eq (i : List Int) (value : List String) (row : Nat) :
    ∀ (k j : Nat) (tb : DataFrame) (crow : List String),
      tb[row]? = some crow → j + k = i.length → crow.length = i.length →
      forLoop (fun idx c => do
        let v ← elemAt i idx
        let crow ← elemAt c row
        let x ← index value v
        let crow ← putAt crow idx x
        putAt c row crow) k j tb
        = ((i.drop j).mapM (fun v => index value v) >>= fun xs =>
            Except.ok (tb.set row (crow.take j ++ xs))) := by
  intro k
  induction k with
  | zero =>
    intro j c crow hc hj hlen
    have hj' : i.length ≤ j := by omega
    rw [forLoop_zero, List.drop_eq_nil_of_le hj', List.mapM_nil]
    show _ = Except.ok (c.set row (crow.take j ++ []))
    rw [List.append_nil, List.take_of_length_le (by omega), set_of_getElem? c row crow hc]
  | succ k ih =>
    intro j c crow hc hj hlen
    have hji : j < i.length := by omega
    have hrow : row < c.length := by
      rcases List.getElem?_eq_some.mp hc with ⟨h, _⟩
      exact h
    rw [forLoop_succ, elemAt_of_lt i j hji, ok_bind, elemAt_of_getElem? c row crow hc, ok_bind,
      List.drop_eq_getElem_cons hji, List.mapM_cons]
    cases hx : index value i[j] with
    | error e => rfl
    | ok x =>
      rw [ok_bind, putAt_of_lt crow j x (by omega), ok_bind, putAt_of_lt c row _ hrow, ok_bind,
        ih (j + 1) (c.set row (crow.set j x)) (crow.set j x)
          (by rw [List.getElem?_set_self hrow]) (by omega) (by simpa using hlen),
        take_succ_set crow j x (by omega)]
      cases List.mapM (fun v => index value v) (List.drop (j + 1) i) with
      | error e => rfl
      | ok xs =>
        show Except.ok _ = Except.ok _
        rw [List.set_set]
        simp

theorem GetColumnsDataFrame.outer_eq (d : DataFrame) (i : List Int) :
    ∀ (k r : Nat) (tb : DataFrame), r + k = d.length → tb.length = d.length →
      (∀ r', r ≤ r' → r' < d.length → tb[r']? = some (List.replicate i.length "")) →
      forLoop (fun row c => do
        let value ← elemAt d row
        forLoop (fun idx c => do
          let v ← elemAt i idx
          let crow ← elemAt c row
          let x ← index value v
          let crow ← putAt crow idx x
          putAt c row crow) i.length 0 c) k r tb
        = ((d.drop r).mapM (fun value => i.mapM (fun v => index value v)) >>= fun rows =>
            Except.ok (tb.take r ++ rows)) := by
  intro k
  induction k with
  | zero =>
    intro r c hr hlen _
    rw [forLoop_zero, List.drop_eq_nil_of_le (by omega), List.mapM_nil]
    show _ = Except.ok (c.take r ++ [])
    rw [List.append_nil, List.take_of_length_le (by omega)]
  | succ k ih =>
    intro r c hr hlen hblank
    have hrd : r < d.length := by omega
    rw [forLoop_succ, elemAt_of_lt d r hrd, ok_bind,
      GetColumnsDataFrame.inner_eq i d[r] r i.length 0 c _ (hblank r (le_refl r) hrd)
        (by omega) (by simp),
      List.drop_eq_getElem_cons hrd, List.mapM_cons, List.drop_zero]
    cases List.mapM (fun v => index d[r] v) i with
    | error e => rfl
    | ok xs =>
      rw [ok_bind, ok_bind, List.take_zero, List.nil_append,
        ih (r + 1) (c.set r xs) (by omega) (by simpa using hlen)
          (fun r' h1 h2 => by
            rw [List.getElem?_set_ne (by omega)]
            exact hblank r' (by omega) h2),
        take_succ_set c r xs (by omega)]
      cases List.mapM (fun value => List.mapM (fun v => index value v) i) (List.drop (r + 1) d) with
      | error e => rfl
      | ok rows =>
        show Except.ok _ = Except.ok _
        simp

/-- The loops of `GetColumnsDataFrame` compute the row-by-row projection: each
row is read at the listed indices, from left to right, and the first
out-of-range read aborts the call. -/
theorem GetColumnsDataFrame_eq_mapM (d : DataFrame) (i : List Int) :
    GetColumnsDataFrame d i = d.mapM (fun value => i.mapM (fun v => index value v)) := by
  unfold GetColumnsDataFrame
  have hr : (Rows d).toNat = d.length := by simp [Rows]
  rw [hr, Allocate_ofLen, ok_bind,
    GetColumnsDataFrame.outer_eq d i d.length 0 _ (by omega) (by simp)
      (fun r' _ h => by simp [h]), List.drop_zero, List.take_zero]
  cases List.mapM (fun value => List.mapM (fun v => index value v) i) d with
  | error e => rfl
  | ok rows => rfl

theorem index_of_inRange {α : Type} (xs : List α) (v : Int) (x : α) (h0 : 0 ≤ v)
    (hx : xs[v.toNat]? = some x) : index xs v = .ok x := by
  simp [index, not_lt.mpr h0, elemAt, hx]

theorem index_of_outOfRange {α : Type} (xs : List α) (v : Int)
    (h : v < 0 ∨ (xs.length : Int) ≤ v) : index xs v = .error .indexOutOfRange := by
  unfold index
  by_cases h0 : v < 0
  · simp [h0]
  · rw [if_neg h0]
    apply elemAt_of_le
    omega

theorem index_error_eq {α : Type} (xs : List α) (v : Int) (e : Fault)
    (h : index xs v = .error e) : e = .indexOutOfRange := by
  unfold index at h
  split at h
  · injection h with h; exact h.symm
  · unfold elemAt at h
    split at h
    · cases h
    · injection h with h; exact h.symm

theorem mapM_ok_of_forall {ε α β : Type} (f : α → Except ε β) (g : α → β) (l : List α)
    (h : ∀ x ∈ l, f x = .ok (g x)) : l.mapM f = .ok (l.map g) := by
  induction l with
  | nil => rfl
  | cons a l ih =>
    rw [List.mapM_cons, h a (List.mem_cons_self a l),
      ih (fun x hx => h x (List.mem_cons_of_mem a hx))]
    rfl

theorem mapM_error_of_exists {ε α β : Type} (f : α → Except ε β) (e : ε) (l : List α)
    (hall : ∀ x ∈ l, ∀ e', f x = .error e' → e' = e)
    (hex : ∃ x ∈ l, ∃ e', f x = .error e') : l.mapM f = .error e := by
  induction l with
  | nil =>
    obtain ⟨x, hx, _⟩ := hex
    cases hx
  | cons a l ih =>
    rw [List.mapM_cons]
    cases ha : f a with
    | error e' =>
      rw [hall a (List.mem_cons_self a l) e' ha]
      rfl
    | ok b =>
      have hex' : ∃ x ∈ l, ∃ e', f x = .error e' := by
        obtain ⟨x, hx, e', he'⟩ := hex
        rcases List.mem_cons.mp hx with rfl | hx'
        · rw [ha] at he'; cases he'
        · exact ⟨x, hx', e', he'⟩
      rw [ih (fun x hx => hall x (List.mem_cons_of_mem a hx)) hex']
      rfl

/-- Projection of one row at in-range indices. -/
theorem project_row_ok (row : List String) (idx : List Int)
    (h : ∀ v ∈ idx, 0 ≤ v ∧ v < (row.length : Int)) :
    idx.mapM (fun v => index row v) = .ok (idx.map (fun v => (row[v.toNat]?).getD "")) := by
  apply mapM_ok_of_forall
  intro v hv
  obtain ⟨h0, h1⟩ := h v hv
  have hlt : v.toNat < row.length := by omega
  apply index_of_inRange _ _ _ h0
  simp [List.getElem?_eq_getElem hlt]

theorem GetColumnsDataFrame_of_inRange (t : DataFrame) (idx : List Int)
    (h : ∀ row ∈ t, ∀ v ∈ idx, 0 ≤ v ∧ v < (row.length : Int)) :
    GetColumnsDataFrame t idx
      = .ok (t.map (fun row => idx.map (fun v => (row[v.toNat]?).getD ""))) := by
  rw [GetColumnsDataFrame_eq_mapM]
  apply mapM_ok_of_forall
  intro row hrow
  exact project_row_ok row idx (h row hrow)

/-- C2: when every listed index is at least 0 and smaller than the length of
every row of `t`, `GetColumnsDataFrame(t, idx)` returns a table with `Rows(t)`
rows, each of `len(idx)` cells, whose cell `k` of row `r` is cell `idx[k]` of
row `r` of `t`. -/
theorem GetColumnsDataFrame_spec (t : DataFrame) (idx : List Int)
    (h : ∀ row ∈ t, ∀ v ∈ idx, 0 ≤ v ∧ v < (row.length : Int)) :
    ∃ res : DataFrame, GetColumnsDataFrame t idx = .ok res ∧
      Rows res = Rows t ∧
      (∀ row ∈ res, row.length = idx.length) ∧
      ∀ (r k : Nat) (v : Int), r < t.length → idx[k]? = some v →
        (cell res r k).isSome = true ∧ cell res r k = cell t r v.toNat := by
  refine ⟨_, GetColumnsDataFrame_of_inRange t idx h, by simp [Rows], ?_, ?_⟩
  · intro row hrow
    obtain ⟨row', _, rfl⟩ := List.mem_map.mp hrow
    simp
  · intro r k v hr hk
    have hmem : t[r] ∈ t := List.getElem_mem hr
    have hv : v ∈ idx := List.getElem?_mem hk
    obtain ⟨h0, h1⟩ := h t[r] hmem v hv
    have hlt : v.toNat < t[r].length := by omega
    have hres : cell (t.map (fun row => idx.map (fun v => (row[v.toNat]?).getD ""))) r k
        = some t[r][v.toNat] := by
      simp [cell, List.getElem?_eq_getElem hr, hk, List.getElem?_eq_getElem hlt]
    have ht : cell t r v.toNat = some t[r][v.toNat] := by
      simp [cell, List.getElem?_eq_getElem hr, List.getElem?_eq_getElem hlt]
    rw [hres, ht]
    exact ⟨rfl, rfl⟩

/-- Witness for `GetColumnsDataFrame_spec`: a 2-by-2 table projected on the
index list `[1, 0, 1]`. -/
theorem GetColumnsDataFrame_spec_witness :
    ∃ res : DataFrame, GetColumnsDataFrame [["a", "b"], ["c", "d"]] [1, 0, 1] = .ok res ∧
      Rows res = Rows [["a", "b"], ["c", "d"]] ∧
      (∀ row ∈ res, row.length = [(1 : Int), 0, 1].length) ∧
      ∀ (r k : Nat) (v : Int), r < [["a", "b"], ["c", "d"]].length →
        [(1 : Int), 0, 1][k]? = some v →
        (cell res r k).isSome = true ∧ cell res r k = cell [["a", "b"], ["c", "d"]] r v.toNat :=
  GetColumnsDataFrame_spec [["a", "b"], ["c", "d"]] [1, 0, 1] (by decide)

/-- C7 (as amended): for a table with at least one row, an index list that
contains an index below 0 or at least `Cols(t)` makes `GetColumnsDataFrame`
abort with the run-time panic "index out of range"; no table is returned. -/
theorem GetColumnsDataFrame_out_of_range (t : DataFrame) (idx : List Int)
    (hrows : t ≠ []) (hbad : ∃ v ∈ idx, v < 0 ∨ Cols t ≤ v) :
    GetColumnsDataFrame t idx = .error .indexOutOfRange := by
  rw [GetColumnsDataFrame_eq_mapM]
  cases t with
  | nil => exact absurd rfl hrows
  | cons row0 rest =>
    rw [List.mapM_cons]
    have hrow0 : idx.mapM (fun v => index row0 v) = .error .indexOutOfRange := by
      apply mapM_error_of_exists
      · intro v _ e he
        exact index_error_eq row0 v e he
      · obtain ⟨v, hv, hv'⟩ := hbad
        exact ⟨v, hv, _, index_of_outOfRange row0 v hv'⟩
    rw [hrow0]
    rfl

/-- Witness for `GetColumnsDataFrame_out_of_range`: index 2 on a 2-column
table. -/
theorem GetColumnsDataFrame_out_of_range_witness :
    GetColumnsDataFrame [["a", "b"], ["c", "d"]] [0, 2] = .error .indexOutOfRange :=
  GetColumnsDataFrame_out_of_range [["a", "b"], ["c", "d"]] [0, 2] (by decide)
    ⟨2, by decide, by decide⟩

/-- C7 (counterexample): on the table with no rows `Cols` is 0, so index 0 is
out of range, yet `GetColumnsDataFrame` returns the empty table. -/
theorem GetColumnsDataFrame_no_rows :
    Cols ([] : DataFrame) ≤ 0 ∧ GetColumnsDataFrame [] [0] = .ok [] := by
  decide

theorem Cols_nonneg (t : DataFrame) : 0 ≤ Cols t := by
  cases t with
  | nil => simp [Cols]
  | cons row0 rest => simp [Cols]

/-- C5: for a rectangular table `t`, an index list `idx` that is a permutation
of `[0, Cols(t))` and its inverse `inv` (`idx[inv[m]] = m` for every column
`m`), projecting on `idx` and then on `inv` returns `t` itself; tables without
rows or without columns are included. -/
theorem GetColumnsDataFrame_inverse (t : DataFrame) (idx inv : List Int)
    (hrect : ∀ row ∈ t, (row.length : Int) = Cols t)
    (hperm : idx.Perm ((List.range (Cols t).toNat).map (fun m : Nat => (m : Int))))
    (hlen : inv.length = (Cols t).toNat)
    (hinv : ∀ m : Nat, m < (Cols t).toNat →
      ∃ k : Int, inv[m]? = some k ∧ 0 ≤ k ∧ idx[k.toNat]? = some (m : Int)) :
    ∃ res : DataFrame, GetColumnsDataFrame t idx = .ok res ∧
      GetColumnsDataFrame res inv = .ok t := by
  have hn := Cols_nonneg t
  have hidxlen : idx.length = (Cols t).toNat := by
    rw [hperm.length_eq]
    simp
  have hrowlen : ∀ row ∈ t, row.length = (Cols t).toNat := by
    intro row hrow
    have := hrect row hrow
    omega
  have h1 : ∀ row ∈ t, ∀ v ∈ idx, 0 ≤ v ∧ v < (row.length : Int) := by
    intro row hrow v hv
    have hv' := (hperm.mem_iff).mp hv
    obtain ⟨m, hm, rfl⟩ := List.mem_map.mp hv'
    have hm' := List.mem_range.mp hm
    have := hrowlen row hrow
    omega
  have h2 : ∀ row' ∈ t.map (fun row => idx.map (fun v => (row[v.toNat]?).getD "")),
      ∀ k ∈ inv, 0 ≤ k ∧ k < (row'.length : Int) := by
    intro row' hrow' k hk
    obtain ⟨row, _, rfl⟩ := List.mem_map.mp hrow'
    obtain ⟨m, hm, hmk⟩ := List.getElem_of_mem hk
    obtain ⟨k', hk', h0, hidx⟩ := hinv m (by omega)
    rw [List.getElem?_eq_getElem hm, hmk] at hk'
    injection hk' with hk'
    subst hk'
    obtain ⟨hlt, _⟩ := List.getElem?_eq_some.mp hidx
    simp only [List.length_map]
    omega
  refine ⟨_, GetColumnsDataFrame_of_inRange t idx h1, ?_⟩
  rw [GetColumnsDataFrame_of_inRange _ inv h2, List.map_map]
  congr 1
  conv_rhs => rw [← List.map_id t]
  apply List.map_congr_left
  intro row hrow
  have hrl := hrowlen row hrow
  show inv.map (fun k => ((idx.map (fun v => (row[v.toNat]?).getD ""))[k.toNat]?).getD "") = row
  apply List.ext_getElem?
  intro m
  rw [List.getElem?_map]
  by_cases hm : m < (Cols t).toNat
  · obtain ⟨k, hk, _, hidx⟩ := hinv m hm
    have hmr : m < row.length := by omega
    rw [hk, List.getElem?_eq_getElem hmr]
    simp [hidx, List.getElem?_eq_getElem hmr]
  · rw [List.getElem?_eq_none (by omega), List.getElem?_eq_none (by omega)]
    rfl

/-- Witness for `GetColumnsDataFrame_inverse`: a 2-by-3 table, the permutation
`[2, 0, 1]` and its inverse `[1, 2, 0]`. -/
theorem GetColumnsDataFrame_inverse_witness :
    ∃ res : DataFrame,
      GetColumnsDataFrame [["a", "b", "c"], ["d", "e", "f"]] [2, 0, 1] = .ok res ∧
      GetColumnsDataFrame res [1, 2, 0] = .ok [["a", "b", "c"], ["d", "e", "f"]] :=
  GetColumnsDataFrame_inverse [["a", "b", "c"], ["d", "e", "f"]] [2, 0, 1] [1, 2, 0]
    (by decide) (by decide) (by decide) (by decide)

/-! ## `DropColumn` -/

theorem putAt_error_eq {α : Type} (xs : List α) (i : Nat) (x : α) (e : Fault)
    (h : putAt xs i x = .error e) : e = .indexOutOfRange := by
  unfold putAt at h
  split at h
  · cases h
  · injection h with h; exact h.symm

theorem setIndex_error_eq {α : Type} (xs : List α) (v : Int) (x : α) (e : Fault)
    (h : setIndex xs v x = .error e) : e = .indexOutOfRange := by
  unfold setIndex at h
  split at h
  · injection h with h; exact h.symm
  · exact putAt_error_eq _ _ _ _ h

theorem DropColumn.f_cons (a : Int) (l : List Int) :
    DropColumn.f (a :: l)
      = .ok ((a :: l).foldl (fun max value => if value > max then value else max) a) := by
  unfold DropColumn.f
  rw [elemAt_of_lt (a :: l) 0 (by simp), ok_bind]
  rfl

/-- The counting loop `for _, value := range i { arr[value]++ }` panics as soon
as it meets a negative value, and it has no other way to fail than an index out
of range. -/
theorem DropColumn.count_of_negative (l : List Int) (h : ∃ v ∈ l, v < 0) :
    ∀ arr : List Int,
      l.foldlM (fun arr value => do
        let a ← index arr value
        setIndex arr value (wrapInt64 (a + 1))) arr = .error .indexOutOfRange := by
  induction l with
  | nil =>
    obtain ⟨v, hv, _⟩ := h
    cases hv
  | cons a l ih =>
    intro arr
    rw [List.foldlM_cons]
    by_cases ha : a < 0
    · rw [index_of_outOfRange arr a (Or.inl ha)]
      rfl
    · cases hi : index arr a with
      | error e =>
        rw [index_error_eq arr a e hi]
        rfl
      | ok x =>
        rw [ok_bind]
        cases hs : setIndex arr a (wrapInt64 (x + 1)) with
        | error e =>
          rw [setIndex_error_eq _ _ _ e hs]
          rfl
        | ok arr' =>
          rw [ok_bind]
          apply ih
          obtain ⟨v, hv, hneg⟩ := h
          rcases List.mem_cons.mp hv with rfl | hv'
          · exact absurd hneg ha
          · exact ⟨v, hv', hneg⟩

/-- C3 (evaluation at the failing input): dropping column 0 of a two-column
table ends in the run-time panic "index out of range", because the mask is sized
by the largest index given and not by the column count. -/
theorem DropColumn_first_of_two :
    DropColumn [["a", "b"], ["c", "d"]] [0] = .error .indexOutOfRange := by
  decide

/-- C4 (evaluation at the failing input): on a two-column table, dropping
column 0 panics while projecting on the complementary list `[1]` returns the
second column. -/
theorem DropColumn_vs_GetColumnsDataFrame :
    DropColumn [["a", "b"], ["c", "d"]] [0] = .error .indexOutOfRange ∧
      GetColumnsDataFrame [["a", "b"], ["c", "d"]] [1] = .ok [["b"], ["d"]] := by
  decide

/-- C6 (as amended): an index list that contains a negative index makes
`DropColumn` panic, whatever the table: with "makeslice: len out of range" when
the mask length `max(idx) + 1`, computed in 64-bit arithmetic, is negative or
its 8-byte cells exceed the allocation limit of `make`, and with "index out of
range" otherwise.  No table is returned. -/
theorem DropColumn_negative_index (t : DataFrame) (idx : List Int)
    (h : ∃ v ∈ idx, v < 0) :
    ∃ max : Int, DropColumn.f idx = .ok max ∧
      DropColumn t idx
        = .error (if wrapInt64 (max + 1) < 0 ∨ (maxAlloc : Int) < wrapInt64 (max + 1) * 8
            then Fault.makeSliceLen else Fault.indexOutOfRange) := by
  cases idx with
  | nil =>
    obtain ⟨v, hv, _⟩ := h
    cases hv
  | cons a l =>
    refine ⟨_, DropColumn.f_cons a l, ?_⟩
    unfold DropColumn
    rw [makeSlice_ofLen, ok_bind, DropColumn.f_cons a l, ok_bind]
    split
    · next hbad =>
      rw [makeSlice_of_outOfRange 8 _ _ (by simpa using hbad)]
      rfl
    · next hfit =>
      rw [makeSlice_of_fits 8 _ _ (by omega) (by push_cast; omega), ok_bind,
        DropColumn.count_of_negative (a :: l) h]
      rfl

/-- Witness for `DropColumn_negative_index`: the index list `[0, -1]`. -/
theorem DropColumn_negative_index_witness :
    ∃ max : Int, DropColumn.f [0, -1] = .ok max ∧
      DropColumn [["a", "b"]] [0, -1]
        = .error (if wrapInt64 (max + 1) < 0 ∨ (maxAlloc : Int) < wrapInt64 (max + 1) * 8
            then Fault.makeSliceLen else Fault.indexOutOfRange) :=
  DropColumn_negative_index [["a", "b"]] [0, -1] ⟨-1, by decide, by decide⟩

/-- C6 (counterexample): index 2 lies beyond the two columns of the table, yet
`DropColumn` returns the table unchanged; and the index list `[-5]` ends in
"makeslice: len out of range", not in "index out of range". -/
theorem DropColumn_beyond_columns :
    Cols [["a", "b"]] ≤ 2 ∧ DropColumn [["a", "b"]] [2] = .ok [["a", "b"]] ∧
      DropColumn [["a", "b"]] [-5] = .error .makeSliceLen := by
  decide

/-! ## `ConvMatrix` -/

theorem ConvMatrix.parseCells_cons {ε α β : Type} (parseFloat : String → Except ε α)
    (float32 : α → β) (s : String) (rest : List String) :
    ConvMatrix.parseCells parseFloat float32 (s :: rest)
      = match parseFloat s with
        | .error err => .error err
        | .ok temp =>
          match ConvMatrix.parseCells parseFloat float32 rest with
          | .error err => .error err
          | .ok vals => .ok (float32 temp :: vals) := rfl

theorem ConvMatrix.cols_succ {ε α β : Type} (parseFloat : String → Except ε α)
    (float32 : α → β) (d : DataFrame) (i k j : Nat) (m : Matrix β) :
    ConvMatrix.cols parseFloat float32 d i (k + 1) j m
      = (elemAt d i >>= fun di => elemAt di j >>= fun dij =>
          match parseFloat dij with
          | .error err => .ok (.error err)
          | .ok temp =>
            elemAt m i >>= fun mi => putAt mi j (float32 temp) >>= fun mi =>
              putAt m i mi >>= fun m => ConvMatrix.cols parseFloat float32 d i k (j + 1) m) := rfl

theorem ConvMatrix.cols_eq {ε α β : Type} (parseFloat : String → Except ε α)
    (float32 : α → β) (d : DataFrame) (i c : Nat) (row : List String) (hrow : d[i]? = some row) :
    ∀ (k j : Nat) (m : Matrix β) (mi : List β),
      m[i]? = some mi → j + k = c → mi.length = c → j ≤ row.length →
      ConvMatrix.cols parseFloat float32 d i k j m
        = match ConvMatrix.parseCells parseFloat float32 ((row.drop j).take k) with
          | .error err => .ok (.error err)
          | .ok vals =>
            if row.length < j + k then .error .indexOutOfRange
            else .ok (.ok (m.set i (mi.take j ++ vals))) := by
  intro k
  induction k with
  | zero =>
    intro j m mi hm hj hlen hjr
    simp only [List.take_zero, ConvMatrix.parseCells, ConvMatrix.cols]
    rw [if_neg (by omega), List.append_nil, List.take_of_length_le (by omega),
      set_of_getElem? m i mi hm]
  | succ k ih =>
    intro j m mi hm hj hlen hjr
    have hmi : i < m.length := (List.getElem?_eq_some.mp hm).1
    rw [ConvMatrix.cols_succ, elemAt_of_getElem? d i row hrow, ok_bind]
    by_cases hjlt : j < row.length
    · rw [elemAt_of_lt row j hjlt, ok_bind, List.drop_eq_getElem_cons hjlt, List.take_succ_cons,
        ConvMatrix.parseCells_cons]
      cases hp : parseFloat row[j] with
      | error err => rfl
      | ok temp =>
        simp only []
        rw [elemAt_of_getElem? m i mi hm, ok_bind, putAt_of_lt mi j _ (by omega), ok_bind,
          putAt_of_lt m i _ hmi, ok_bind,
          ih (j + 1) (m.set i (mi.set j (float32 temp))) (mi.set j (float32 temp))
            (by rw [List.getElem?_set_self hmi]) (by omega) (by simpa using hlen) (by omega),
          take_succ_set mi j _ (by omega)]
        cases ConvMatrix.parseCells parseFloat float32 (List.take k (List.drop (j + 1) row)) with
        | error err => rfl
        | ok vals =>
          simp only []
          have e1 : j + 1 + k = j + (k + 1) := by omega
          rw [e1, List.set_set]
          simp
    · have hjeq : row.length ≤ j := by omega
      rw [elemAt_of_le row j hjeq, error_bind, List.drop_eq_nil_of_le hjeq]
      simp only [List.take_nil, ConvMatrix.parseCells]
      rw [if_pos (by omega)]

theorem ConvMatrix.rows_succ {ε α β : Type} (parseFloat : String → Except ε α)
    (float32 : α → β) (d : DataFrame) (c k i : Nat) (m : Matrix β) :
    ConvMatrix.rows parseFloat float32 d c (k + 1) i m
      = (ConvMatrix.cols parseFloat float32 d i c 0 m >>= fun r =>
          match r with
          | .error err => .ok (.error err)
          | .ok m => ConvMatrix.rows parseFloat float32 d c k (i + 1) m) := rfl

theorem ConvMatrix.tableOutcome_cons {ε α β : Type} (parseFloat : String → Except ε α)
    (float32 : α → β) (c : Nat) (row : List String) (rest : DataFrame) :
    (ConvMatrix.tableOutcome parseFloat float32 c (row :: rest) : Except Fault (Except ε (Matrix β)))
      = match ConvMatrix.rowOutcome parseFloat float32 c row with
        | .error f => .error f
        | .ok (.error err) => .ok (.error err)
        | .ok (.ok vals) =>
          match ConvMatrix.tableOutcome parseFloat float32 c rest with
          | .error f => .error f
          | .ok (.error err) => .ok (.error err)
          | .ok (.ok m) => .ok (.ok (vals :: m)) := rfl

theorem ConvMatrix.rows_eq {ε α β : Type} (parseFloat : String → Except ε α)
    (float32 : α → β) (zero : β) (d : DataFrame) (c : Nat) :
    ∀ (k i : Nat) (m : Matrix β), i + k = d.length → m.length = d.length →
      (∀ i', i ≤ i' → i' < d.length → m[i']? = some (List.replicate c zero)) →
      ConvMatrix.rows parseFloat float32 d c k i m
        = match ConvMatrix.tableOutcome parseFloat float32 c (d.drop i) with
          | .error f => .error f
          | .ok (.error err) => .ok (.error err)
          | .ok (.ok rows) => .ok (.ok (m.take i ++ rows)) := by
  intro k
  induction k with
  | zero =>
    intro i m hi hlen _
    rw [List.drop_eq_nil_of_le (by omega)]
    simp only [ConvMatrix.tableOutcome, ConvMatrix.rows]
    rw [List.append_nil, List.take_of_length_le (by omega)]
  | succ k ih =>
    intro i m hi hlen hzero
    have hid : i < d.length := by omega
    rw [ConvMatrix.rows_succ,
      ConvMatrix.cols_eq parseFloat float32 d i c d[i] (List.getElem?_eq_getElem hid) c 0 m
        (List.replicate c zero) (hzero i (le_refl i) hid) (by omega) (by simp) (by omega),
      List.drop_eq_getElem_cons hid, ConvMatrix.tableOutcome_cons]
    unfold ConvMatrix.rowOutcome
    rw [List.drop_zero, Nat.zero_add]
    cases ConvMatrix.parseCells parseFloat float32 (List.take c d[i]) with
    | error err => rfl
    | ok vals =>
      simp only []
      by_cases hshort : d[i].length < c
      · rw [if_pos hshort, if_pos hshort]
        rfl
      · rw [if_neg hshort, if_neg hshort, ok_bind]
        simp only [List.take_zero, List.nil_append]
        rw [ih (i + 1) (m.set i vals) (by omega) (by simpa using hlen)
          (fun i' h1 h2 => by
            rw [List.getElem?_set_ne (by omega)]
            exact hzero i' (by omega) h2),
          take_succ_set m i vals (by omega)]
        cases ConvMatrix.tableOutcome parseFloat float32 c (List.drop (i + 1) d) with
        | error f => rfl
        | ok r =>
          cases r with
          | error err => rfl
          | ok rows => simp

/-- The loops of `ConvMatrix` compute `ConvMatrix.tableOutcome` at the width of
row 0. -/
theorem ConvMatrix_eq_tableOutcome {ε α β : Type} (parseFloat : String → Except ε α)
    (float32 : α → β) (zero : β) (d : DataFrame) :
    ConvMatrix parseFloat float32 zero d
      = ConvMatrix.tableOutcome parseFloat float32 (Cols d).toNat d := by
  unfold ConvMatrix
  simp only [Rows, Int.toNat_ofNat]
  rw [ConvMatrix.rows_eq parseFloat float32 zero d (Cols d).toNat d.length 0 _ (by omega)
    (by simp [Zeros]) (fun i' _ h => by simp [Zeros, h]), List.drop_zero]
  cases ConvMatrix.tableOutcome parseFloat float32 (Cols d).toNat d with
  | error f => rfl
  | ok r =>
    cases r with
    | error err => rfl
    | ok rows => simp

theorem ConvMatrix.parseCells_ok {ε α β : Type} (parseFloat : String → Except ε α)
    (float32 : α → β) :
    ∀ (cells : List String) (vals : List β),
      ConvMatrix.parseCells parseFloat float32 cells = .ok vals →
      vals.length = cells.length ∧
      ∀ (j : Nat) (s : String), cells[j]? = some s →
        ∃ temp, parseFloat s = .ok temp ∧ vals[j]? = some (float32 temp) := by
  intro cells
  induction cells with
  | nil =>
    intro vals h
    simp only [ConvMatrix.parseCells] at h
    injection h with h
    subst h
    exact ⟨rfl, fun j s hs => by simp at hs⟩
  | cons a rest ih =>
    intro vals h
    rw [ConvMatrix.parseCells_cons] at h
    cases hp : parseFloat a with
    | error err => rw [hp] at h; cases h
    | ok temp =>
      rw [hp] at h
      simp only [] at h
      cases hr : ConvMatrix.parseCells parseFloat float32 rest with
      | error err => rw [hr] at h; cases h
      | ok vals' =>
        rw [hr] at h
        simp only [] at h
        injection h with h
        subst h
        obtain ⟨hlen, hcells⟩ := ih vals' hr
        refine ⟨by simp [hlen], ?_⟩
        intro j s hs
        cases j with
        | zero =>
          simp only [List.getElem?_cons_zero] at hs
          injection hs with hs
          subst hs
          exact ⟨temp, hp, by simp⟩
        | succ j =>
          simp only [List.getElem?_cons_succ] at hs
          obtain ⟨temp', h1, h2⟩ := hcells j s hs
          exact ⟨temp', h1, by simpa using h2⟩

theorem ConvMatrix.tableOutcome_ok {ε α β : Type} (parseFloat : String → Except ε α)
    (float32 : α → β) (c : Nat) :
    ∀ (t : DataFrame) (m : Matrix β),
      ConvMatrix.tableOutcome parseFloat float32 c t = .ok (.ok m) →
      m.length = t.length ∧
      ∀ (i : Nat) (row : List String), t[i]? = some row →
        c ≤ row.length ∧
        ∃ vals, m[i]? = some vals ∧
          ConvMatrix.parseCells parseFloat float32 (row.take c) = .ok vals := by
  intro t
  induction t with
  | nil =>
    intro m h
    simp only [ConvMatrix.tableOutcome] at h
    injection h with h
    injection h with h
    subst h
    exact ⟨rfl, fun i row hrow => by simp at hrow⟩
  | cons a rest ih =>
    intro m h
    rw [ConvMatrix.tableOutcome_cons] at h
    unfold ConvMatrix.rowOutcome at h
    cases hp : ConvMatrix.parseCells parseFloat float32 (List.take c a) with
    | error err => rw [hp] at h; cases h
    | ok vals =>
      rw [hp] at h
      simp only [] at h
      by_cases hshort : a.length < c
      · rw [if_pos hshort] at h; cases h
      · rw [if_neg hshort] at h
        simp only [] at h
        cases hr : ConvMatrix.tableOutcome parseFloat float32 c rest with
        | error f => rw [hr] at h; cases h
        | ok r =>
          cases r with
          | error err => rw [hr] at h; cases h
          | ok m' =>
            rw [hr] at h
            simp only [] at h
            injection h with h
            injection h with h
            subst h
            obtain ⟨hlen, hrows⟩ := ih m' hr
            refine ⟨by simp [hlen], ?_⟩
            intro i row hrow
            cases i with
            | zero =>
              simp only [List.getElem?_cons_zero] at hrow
              injection hrow with hrow
              subst hrow
              exact ⟨by omega, vals, by simp, hp⟩
            | succ i =>
              simp only [List.getElem?_cons_succ] at hrow
              obtain ⟨h1, vals', h2, h3⟩ := hrows i row hrow
              exact ⟨h1, vals', by simpa using h2, h3⟩

/-- C9 (as amended): when `ConvMatrix(t)` succeeds, the matrix has `Rows(t)`
rows, each of exactly `Cols(t)` cells (the width of row 0, also when a later row
of `t` is wider), every row of `t` has at least `Cols(t)` cells, and for every
`j < Cols(t)` cell `(i, j)` of the matrix is the parsed and narrowed value of
cell `(i, j)` of `t`. -/
theorem ConvMatrix_success_shape {ε α β : Type} (parseFloat : String → Except ε α)
    (float32 : α → β) (zero : β) (t : DataFrame) (m : Matrix β)
    (h : ConvMatrix parseFloat float32 zero t = .ok (.ok m)) :
    (m.length : Int) = Rows t ∧
      (∀ mrow ∈ m, (mrow.length : Int) = Cols t) ∧
      (∀ row ∈ t, Cols t ≤ (row.length : Int)) ∧
      ∀ (i j : Nat) (s : String), (j : Int) < Cols t → cell t i j = some s →
        ∃ temp, parseFloat s = .ok temp ∧
          (m[i]?).bind (fun mrow => mrow[j]?) = some (float32 temp) := by
  rw [ConvMatrix_eq_tableOutcome] at h
  obtain ⟨hlen, hrows⟩ := ConvMatrix.tableOutcome_ok parseFloat float32 _ t m h
  have hn := Cols_nonneg t
  refine ⟨by simp [Rows, hlen], ?_, ?_, ?_⟩
  · intro mrow hmrow
    obtain ⟨i, hi, hmi⟩ := List.getElem_of_mem hmrow
    have hit : i < t.length := by omega
    obtain ⟨hc, vals, hv, hp⟩ := hrows i t[i] (List.getElem?_eq_getElem hit)
    rw [List.getElem?_eq_getElem hi, hmi] at hv
    injection hv with hv
    subst hv
    have := (ConvMatrix.parseCells_ok parseFloat float32 _ _ hp).1
    rw [List.length_take] at this
    omega
  · intro row hrow
    obtain ⟨i, hi, hti⟩ := List.getElem_of_mem hrow
    obtain ⟨hc, _⟩ := hrows i row (by rw [List.getElem?_eq_getElem hi, hti])
    omega
  · intro i j s hj hcell
    unfold cell at hcell
    cases hti : t[i]? with
    | none => rw [hti] at hcell; cases hcell
    | some row =>
      rw [hti] at hcell
      change row[j]? = some s at hcell
      obtain ⟨hc, vals, hv, hp⟩ := hrows i row hti
      have htake : (row.take (Cols t).toNat)[j]? = some s := by
        rw [List.getElem?_take, if_pos (by omega)]
        exact hcell
      obtain ⟨temp, h1, h2⟩ :=
        (ConvMatrix.parseCells_ok parseFloat float32 _ _ hp).2 j s htake
      exact ⟨temp, h1, by rw [hv]; exact h2⟩

/-- Witness for `ConvMatrix_success_shape`: a numeric 2-by-2 table. -/
theorem ConvMatrix_success_shape_witness :
    ((([[1, 2], [3, 4]] : Matrix Int).length : Int) = Rows [["1", "2"], ["3", "4"]]) ∧
      (∀ mrow ∈ ([[1, 2], [3, 4]] : Matrix Int),
        (mrow.length : Int) = Cols [["1", "2"], ["3", "4"]]) ∧
      (∀ row ∈ ([["1", "2"], ["3", "4"]] : DataFrame),
        Cols [["1", "2"], ["3", "4"]] ≤ (row.length : Int)) ∧
      ∀ (i j : Nat) (s : String), (j : Int) < Cols [["1", "2"], ["3", "4"]] →
        cell [["1", "2"], ["3", "4"]] i j = some s →
        ∃ temp, parseDigit s = .ok temp ∧
          (([[1, 2], [3, 4]] : Matrix Int)[i]?).bind (fun mrow => mrow[j]?) = some (id temp) :=
  ConvMatrix_success_shape parseDigit id 0 [["1", "2"], ["3", "4"]] [[1, 2], [3, 4]] (by decide)

/-- C9 (counterexample): `ConvMatrix` succeeds on a ragged table whose second
row is wider than the first; row 1 of the matrix has one cell, row 1 of the
table has two. -/
theorem ConvMatrix_ragged_shape :
    ∃ m : Matrix Int, ConvMatrix parseDigit id 0 [["1"], ["2", "3"]] = .ok (.ok m) ∧
      (m[1]?).map List.length = some 1 ∧
      (([["1"], ["2", "3"]] : DataFrame)[1]?).map List.length = some 2 :=
  ⟨[[1], [2]], by decide, by decide, by decide⟩

theorem ConvMatrix.parseCells_of_accepted {ε α β : Type} (parseFloat : String → Except ε α)
    (float32 : α → β) (cells : List String) (h : ∀ x ∈ cells, ∃ a, parseFloat x = .ok a) :
    ∃ vals, ConvMatrix.parseCells parseFloat float32 cells = .ok vals := by
  induction cells with
  | nil => exact ⟨[], rfl⟩
  | cons a rest ih =>
    obtain ⟨temp, ha⟩ := h a (List.mem_cons_self a rest)
    obtain ⟨vals, hv⟩ := ih (fun x hx => h x (List.mem_cons_of_mem a hx))
    refine ⟨float32 temp :: vals, ?_⟩
    rw [ConvMatrix.parseCells_cons, ha]
    simp only []
    rw [hv]

theorem ConvMatrix.parseCells_of_rejected {ε α β : Type} (parseFloat : String → Except ε α)
    (float32 : α → β) (cells : List String) (h : ∃ s ∈ cells, ∃ e, parseFloat s = .error e) :
    ∃ pre s post e, cells = pre ++ s :: post ∧ (∀ x ∈ pre, ∃ a, parseFloat x = .ok a) ∧
      parseFloat s = .error e ∧
      (ConvMatrix.parseCells parseFloat float32 cells : Except ε (List β)) = .error e := by
  induction cells with
  | nil =>
    obtain ⟨s, hs, _⟩ := h
    cases hs
  | cons a rest ih =>
    cases ha : parseFloat a with
    | error e =>
      refine ⟨[], a, rest, e, rfl, fun x hx => (by cases hx), ha, ?_⟩
      rw [ConvMatrix.parseCells_cons, ha]
    | ok temp =>
      have h' : ∃ s ∈ rest, ∃ e, parseFloat s = .error e := by
        obtain ⟨s, hs, e, he⟩ := h
        rcases List.mem_cons.mp hs with rfl | hs'
        · rw [ha] at he; cases he
        · exact ⟨s, hs', e, he⟩
      obtain ⟨pre, s, post, e, hsplit, hpre, hs, hres⟩ := ih h'
      refine ⟨a :: pre, s, post, e, by rw [hsplit]; rfl, ?_, hs, ?_⟩
      · intro x hx
        rcases List.mem_cons.mp hx with rfl | hx'
        · exact ⟨temp, ha⟩
        · exact hpre x hx'
      · rw [ConvMatrix.parseCells_cons, ha]
        simp only []
        rw [hres]

theorem ConvMatrix.tableOutcome_of_rejected {ε α β : Type} (parseFloat : String → Except ε α)
    (float32 : α → β) (c : Nat) (t : DataFrame) (hrect : ∀ row ∈ t, row.length = c)
    (h : ∃ s ∈ t.flatten, ∃ e, parseFloat s = .error e) :
    ∃ pre s post e, t.flatten = pre ++ s :: post ∧ (∀ x ∈ pre, ∃ a, parseFloat x = .ok a) ∧
      parseFloat s = .error e ∧
      (ConvMatrix.tableOutcome parseFloat float32 c t : Except Fault (Except ε (Matrix β)))
        = .ok (.error e) := by
  induction t with
  | nil =>
    obtain ⟨s, hs, _⟩ := h
    simp at hs
  | cons row rest ih =>
    have hlen : row.length = c := hrect row (List.mem_cons_self row rest)
    have htake : row.take c = row := List.take_of_length_le (by omega)
    by_cases hrow : ∃ s ∈ row, ∃ e, parseFloat s = .error e
    · obtain ⟨pre, s, post, e, hsplit, hpre, hs, hres⟩ :=
        ConvMatrix.parseCells_of_rejected parseFloat float32 row hrow
      refine ⟨pre, s, post ++ rest.flatten, e, ?_, hpre, hs, ?_⟩
      · rw [List.flatten_cons, hsplit]
        simp
      · rw [ConvMatrix.tableOutcome_cons]
        unfold ConvMatrix.rowOutcome
        rw [htake, hres]
    · have hacc : ∀ x ∈ row, ∃ a, parseFloat x = .ok a := by
        intro x hx
        cases hp : parseFloat x with
        | error e => exact absurd ⟨x, hx, e, hp⟩ hrow
        | ok a => exact ⟨a, rfl⟩
      obtain ⟨vals, hvals⟩ := ConvMatrix.parseCells_of_accepted parseFloat float32 row hacc
      have h' : ∃ s ∈ rest.flatten, ∃ e, parseFloat s = .error e := by
        obtain ⟨s, hs, e, he⟩ := h
        rw [List.flatten_cons] at hs
        rcases List.mem_append.mp hs with hs' | hs'
        · exact absurd ⟨s, hs', e, he⟩ hrow
        · exact ⟨s, hs', e, he⟩
      obtain ⟨pre, s, post, e, hsplit, hpre, hs, hres⟩ :=
        ih (fun r hr => hrect r (List.mem_cons_of_mem row hr)) h'
      refine ⟨row ++ pre, s, post, e, ?_, ?_, hs, ?_⟩
      · rw [List.flatten_cons, hsplit]
        simp
      · intro x hx
        rcases List.mem_append.mp hx with hx' | hx'
        · exact hacc x hx'
        · exact hpre x hx'
      · rw [ConvMatrix.tableOutcome_cons]
        unfold ConvMatrix.rowOutcome
        rw [htake, hvals]
        simp only []
        rw [if_neg (by omega)]
        simp only []
        rw [hres]

/-- C8 (as amended): on a rectangular table that contains a cell the parser
rejects, `ConvMatrix` returns no matrix but an error, and the error is the
parser's own error for the first rejected cell in row-major order: every cell
before it is accepted.  The error is the parser's value and nothing more. -/
theorem ConvMatrix_first_rejected {ε α β : Type} (parseFloat : String → Except ε α)
    (float32 : α → β) (zero : β) (t : DataFrame)
    (hrect : ∀ row ∈ t, (row.length : Int) = Cols t)
    (hbad : ∃ s ∈ t.flatten, ∃ e, parseFloat s = .error e) :
    ∃ pre s post e, t.flatten = pre ++ s :: post ∧ (∀ x ∈ pre, ∃ a, parseFloat x = .ok a) ∧
      parseFloat s = .error e ∧
      ConvMatrix parseFloat float32 zero t = .ok (.error e) := by
  rw [ConvMatrix_eq_tableOutcome]
  have hn := Cols_nonneg t
  exact ConvMatrix.tableOutcome_of_rejected parseFloat float32 _ t
    (fun row hrow => by have := hrect row hrow; omega) hbad

/-- Witness for `ConvMatrix_first_rejected`: a 2-by-2 table with two rejected
cells. -/
theorem ConvMatrix_first_rejected_witness :
    ∃ pre s post e, ([["1", "x"], ["y", "4"]] : DataFrame).flatten = pre ++ s :: post ∧
      (∀ x ∈ pre, ∃ a, parseDigit x = .ok a) ∧
      parseDigit s = .error e ∧
      ConvMatrix parseDigit id 0 [["1", "x"], ["y", "4"]] = .ok (.error e) :=
  ConvMatrix_first_rejected parseDigit id 0 [["1", "x"], ["y", "4"]] (by decide)
    ⟨"x", by decide, "x", by decide⟩

/-- C8 (counterexample): the ragged table `[["1"], ["2", "x"]]` contains the
rejected cell `"x"` and converts without an error; and the tables `[["x", "1"]]`
and `[["1", "x"]]`, whose rejected cell sits in different columns, produce the
same failure. -/
theorem ConvMatrix_ragged_rejected :
    parseDigit "x" = .error "x" ∧
      ConvMatrix parseDigit id 0 [["1"], ["2", "x"]] = .ok (.ok [[1], [2]]) ∧
      ConvMatrix parseDigit id 0 [["x", "1"]] = .ok (.error "x") ∧
      ConvMatrix parseDigit id 0 [["1", "x"]] = .ok (.error "x") := by
  decide

/-! ## `SetHeaders`, `Head`, `Headers` -/

theorem SetHeaders.loop_shift (d : DataFrame) :
    ∀ (k i : Nat) (nd : DataFrame), 1 ≤ i → i + k = d.length + 1 → nd.length = d.length + 1 →
      forLoop (fun i newDataFrame => do
        let di ← elemAt d (i - 1)
        putAt newDataFrame i di) k i nd
        = .ok (nd.take i ++ d.drop (i - 1)) := by
  intro k
  induction k with
  | zero =>
    intro i nd _ hi hlen
    rw [forLoop_zero, List.drop_eq_nil_of_le (by omega), List.append_nil,
      List.take_of_length_le (by omega)]
  | succ k ih =>
    intro i nd h1 hi hlen
    have hd : i - 1 < d.length := by omega
    rw [forLoop_succ, elemAt_of_lt d (i - 1) hd, ok_bind, putAt_of_lt nd i _ (by omega), ok_bind,
      ih (i + 1) _ (by omega) (by omega) (by simpa using hlen),
      take_succ_set nd i _ (by omega), List.drop_eq_getElem_cons hd]
    have e : i - 1 + 1 = i + 1 - 1 := by omega
    rw [e]
    simp

theorem SetHeaders_eq_cons (d : DataFrame) (header : List String) :
    SetHeaders d header = .ok (header :: d) := by
  unfold SetHeaders
  have hr : (Rows d + 1).toNat = d.length + 1 := by unfold Rows; omega
  rw [hr, Allocate_ofLen, ok_bind, putAt_of_lt _ 0 header (by simp), ok_bind]
  have hr2 : (Rows ((List.replicate (d.length + 1)
      (List.replicate header.length "")).set 0 header)).toNat - 1 = d.length := by
    simp [Rows]
  show forLoop _ ((Rows _).toNat - 1) 1 _ = _
  rw [hr2, SetHeaders.loop_shift d d.length 1 _ (le_refl 1) (by omega) (by simp)]
  simp [List.replicate_succ]

/-- C11: for every table `t` and every header `h`, of any length, `SetHeaders`
completes without a panic and leaves the table whose row 0 is `h` and whose row
`i + 1` is row `i` of `t`; that table has `Rows(t) + 1` rows and `Cols()` equal
to `len(h)`.  The outcome is this function of `(t, h)` and nothing else. -/
theorem SetHeaders_spec (t : DataFrame) (h : List String) :
    ∃ res : DataFrame, SetHeaders t h = .ok res ∧
      res = h :: t ∧
      res[0]? = some h ∧
      (∀ i : Nat, i < t.length → res[i + 1]? = t[i]?) ∧
      Rows res = Rows t + 1 ∧
      Cols res = (h.length : Int) := by
  refine ⟨_, SetHeaders_eq_cons t h, rfl, by simp, ?_, ?_, rfl⟩
  · intro i _
    simp
  · simp [Rows]

/-- C12 (as amended): `SetHeaders` never fails; when some row of `t` has a
length other than `len(h)` it leaves the ragged table `h :: t`, in which that
row keeps its own length while `Cols()` reports `len(h)`. -/
theorem SetHeaders_ragged (t : DataFrame) (h : List String)
    (hne : ∃ row ∈ t, row.length ≠ h.length) :
    ∃ res : DataFrame, SetHeaders t h = .ok res ∧ res = h :: t ∧
      ∃ row ∈ res, (row.length : Int) ≠ Cols res := by
  refine ⟨_, SetHeaders_eq_cons t h, rfl, ?_⟩
  obtain ⟨row, hrow, hlen⟩ := hne
  refine ⟨row, List.mem_cons_of_mem h hrow, ?_⟩
  show (row.length : Int) ≠ (h.length : Int)
  omega

/-- Witness for `SetHeaders_ragged`: a one-column table and a two-name header. -/
theorem SetHeaders_ragged_witness :
    ∃ res : DataFrame, SetHeaders [["a"], ["b"]] ["x", "y"] = .ok res ∧
      res = ["x", "y"] :: [["a"], ["b"]] ∧
      ∃ row ∈ res, (row.length : Int) ≠ Cols res :=
  SetHeaders_ragged [["a"], ["b"]] ["x", "y"] ⟨["a"], by decide, by decide⟩

/-- C12 (counterexample): with a one-column table and a two-name header,
`SetHeaders` does not fail; it yields a table whose second row has one cell while
`Cols()` is 2. -/
theorem SetHeaders_no_shape_check :
    SetHeaders [["a"]] ["x", "y"] = .ok [["x", "y"], ["a"]] ∧
      Cols [["x", "y"], ["a"]] = 2 := by
  decide

/-- C13 (as amended): for `n ≥ 0`, `Head(t, n)` returns the first
`min(n, Rows(t))` rows of `t` in order, which is the empty table for `n = 0`;
for `n < 0` the slice expression `d[0:n]` panics with "slice bounds out of
range" and no table is returned. -/
theorem Head_spec (t : DataFrame) (n : Int) :
    Head t n = if n < 0 then .error .sliceBounds
      else .ok (t.take (min n.toNat t.length)) := by
  unfold Head sliceTo
  by_cases hneg : n < 0
  · have h1 : n ≤ (t.length : Int) := by omega
    simp [hneg, h1]
  · by_cases hle : n ≤ (t.length : Int)
    · have h2 : ¬ (t.length : Int) < n := by omega
      have h3 : min n.toNat t.length = n.toNat := by omega
      simp [hneg, hle, h2, h3]
    · have h3 : min n.toNat t.length = t.length := by omega
      simp [hneg, hle, h3]

/-- C13 (counterexample): `Head(t, -1)` panics instead of returning the empty
table. -/
theorem Head_negative :
    Head [["a"], ["b"]] (-1) = .error .sliceBounds := by
  decide

/-- C14 (as amended): on a table with at least one row `Headers` returns row 0;
on the table with no rows the unguarded read `d[0]` panics with "index out of
range", and that panic is the only failure `Headers` has. -/
theorem Headers_spec (t : DataFrame) :
    (∀ (row0 : List String) (rest : DataFrame), t = row0 :: rest → Headers t = .ok row0) ∧
      (t = [] → Headers t = .error .indexOutOfRange) := by
  constructor
  · intro row0 rest ht
    subst ht
    simp [Headers, elemAt]
  · intro ht
    subst ht
    simp [Headers, elemAt]

/-- C14 (counterexample): on the table with no rows the outcome of `Headers` is
the run-time panic of the unguarded read of row 0, not a failure value handed
to the caller. -/
theorem Headers_no_rows :
    Headers ([] : DataFrame) = .error .indexOutOfRange := by
  decide

/-- C15 (as amended): with a negative row count, or a positive row count and a
negative column count, `Allocate` panics with "makeslice: len out of range" and
returns no table; with a row count of 0 the column count is never used and the
empty table is returned. -/
theorem Allocate_negative (row col : Int) (h : row < 0 ∨ col < 0) :
    Allocate (.ofInt row) (.ofInt col)
      = if row = 0 then .ok [] else .error .makeSliceLen := by
  by_cases h0 : row = 0
  · subst h0
    rw [if_pos rfl]
    rfl
  · rw [if_neg h0]
    apply Allocate_of_outOfRange
    rcases h with h | h
    · exact Or.inl h
    · exact Or.inr (Or.inr ⟨h0, Or.inl h⟩)

/-- Witness for `Allocate_negative`: `Allocate(2, -1)`. -/
theorem Allocate_negative_witness :
    Allocate (.ofInt 2) (.ofInt (-1))
      = if (2 : Int) = 0 then .ok [] else .error .makeSliceLen :=
  Allocate_negative 2 (-1) (Or.inr (by decide))

/-- C15 (counterexample): `Allocate(0, -1)` returns the empty table. -/
theorem Allocate_zero_rows_negative_cols :
    Allocate (.ofInt 0) (.ofInt (-1)) = .ok [] := by
  decide

/-- C16: for `t = [["1","2"],["3","4"],["5","6","7"]]`, `WipeDown(t, 2)` returns
`[["1","2"],["3","4"]]`, and with a parser that maps the texts "1", "2", "3",
"4" to `v1`, `v2`, `v3`, `v4`, `ConvMatrix` of that result succeeds with the
2-by-2 matrix of the narrowed values. -/
theorem WipeDown_ConvMatrix_scenario {ε α β : Type} (parseFloat : String → Except ε α)
    (float32 : α → β) (zero : β) (v1 v2 v3 v4 : α)
    (h1 : parseFloat "1" = .ok v1) (h2 : parseFloat "2" = .ok v2)
    (h3 : parseFloat "3" = .ok v3) (h4 : parseFloat "4" = .ok v4) :
    WipeDown [["1", "2"], ["3", "4"], ["5", "6", "7"]] 2 = .ok [["1", "2"], ["3", "4"]] ∧
      ConvMatrix parseFloat float32 zero [["1", "2"], ["3", "4"]]
        = .ok (.ok [[float32 v1, float32 v2], [float32 v3, float32 v4]]) := by
  refine ⟨by decide, ?_⟩
  rw [ConvMatrix_eq_tableOutcome]
  simp [Cols, ConvMatrix.tableOutcome, ConvMatrix.rowOutcome, ConvMatrix.parseCells,
    h1, h2, h3, h4]

/-- Witness for `WipeDown_ConvMatrix_scenario`: the digit parser, with integers
standing for the numbers and the identity for the narrowing. -/
theorem WipeDown_ConvMatrix_scenario_witness :
    WipeDown [["1", "2"], ["3", "4"], ["5", "6", "7"]] 2 = .ok [["1", "2"], ["3", "4"]] ∧
      ConvMatrix parseDigit id 0 [["1", "2"], ["3", "4"]]
        = .ok (.ok [[id 1, id 2], [id 3, id 4]]) :=
  WipeDown_ConvMatrix_scenario parseDigit id 0 1 2 3 4 (by decide) (by decide) (by decide)
    (by decide)

/-! ## Composition of projections -/

/-- C19: when every entry of `a` is a valid index of every row of `t` and every
entry of `b` lies in `[0, len(a))`, projecting on `a` and then on `b` gives the
same table as projecting once on the list `comp` with `comp[m] = a[b[m]]`; all three
calls return. -/
theorem GetColumnsDataFrame_compose (t : DataFrame) (a b comp : List Int)
    (ha : ∀ row ∈ t, ∀ v ∈ a, 0 ≤ v ∧ v < (row.length : Int))
    (hb : ∀ k ∈ b, 0 ≤ k ∧ k < (a.length : Int))
    (hlen : comp.length = b.length)
    (hc : ∀ (m : Nat) (k : Int), b[m]? = some k → comp[m]? = a[k.toNat]?) :
    ∃ res out : DataFrame, GetColumnsDataFrame t a = .ok res ∧
      GetColumnsDataFrame t comp = .ok out ∧
      GetColumnsDataFrame res b = .ok out := by
  have hceq : comp = b.map (fun k => (a[k.toNat]?).getD 0) := by
    apply List.ext_getElem?
    intro m
    rw [List.getElem?_map]
    cases hbm : b[m]? with
    | none =>
      have : b.length ≤ m := by
        by_contra hcon
        rw [List.getElem?_eq_getElem (by omega)] at hbm
        cases hbm
      rw [List.getElem?_eq_none (by omega)]
      rfl
    | some k =>
      have hk := hb k (List.getElem?_mem hbm)
      have hlt : k.toNat < a.length := by omega
      rw [hc m k hbm, List.getElem?_eq_getElem hlt]
      simp [List.getElem?_eq_getElem hlt]
  have hcr : ∀ row ∈ t, ∀ v ∈ comp, 0 ≤ v ∧ v < (row.length : Int) := by
    intro row hrow v hv
    rw [hceq] at hv
    obtain ⟨k, hk, rfl⟩ := List.mem_map.mp hv
    have hk' := hb k hk
    have hlt : k.toNat < a.length := by omega
    have : (a[k.toNat]?).getD 0 = a[k.toNat] := by simp [List.getElem?_eq_getElem hlt]
    rw [this]
    exact ha row hrow _ (List.getElem_mem hlt)
  have hbr : ∀ row' ∈ t.map (fun row => a.map (fun v => (row[v.toNat]?).getD "")),
      ∀ k ∈ b, 0 ≤ k ∧ k < (row'.length : Int) := by
    intro row' hrow' k hk
    obtain ⟨row, _, rfl⟩ := List.mem_map.mp hrow'
    simpa using hb k hk
  refine ⟨_, _, GetColumnsDataFrame_of_inRange t a ha, GetColumnsDataFrame_of_inRange t comp hcr, ?_⟩
  rw [GetColumnsDataFrame_of_inRange _ b hbr, List.map_map]
  congr 1
  apply List.map_congr_left
  intro row _
  show b.map (fun k => ((a.map (fun v => (row[v.toNat]?).getD ""))[k.toNat]?).getD "")
    = comp.map (fun v => (row[v.toNat]?).getD "")
  rw [hceq, List.map_map]
  apply List.map_congr_left
  intro k hk
  have hk' := hb k hk
  have hlt : k.toNat < a.length := by omega
  simp [List.getElem?_eq_getElem hlt]

/-- Witness for `GetColumnsDataFrame_compose`: `a = [2, 0, 1]`, `b = [1, 1, 2]`
and `comp = [0, 0, 1]` on a 2-by-3 table. -/
theorem GetColumnsDataFrame_compose_witness :
    ∃ res out : DataFrame,
      GetColumnsDataFrame [["a", "b", "c"], ["d", "e", "f"]] [2, 0, 1] = .ok res ∧
      GetColumnsDataFrame [["a", "b", "c"], ["d", "e", "f"]] [0, 0, 1] = .ok out ∧
      GetColumnsDataFrame res [1, 1, 2] = .ok out :=
  GetColumnsDataFrame_compose [["a", "b", "c"], ["d", "e", "f"]] [2, 0, 1] [1, 1, 2] [0, 0, 1]
    (by decide) (by decide) (by decide)
    (fun m k hm => by
      match m, hm with
      | 0, hm => simp at hm; subst hm; rfl
      | 1, hm => simp at hm; subst hm; rfl
      | 2, hm => simp at hm; subst hm; rfl
      | (m + 3), hm => simp at hm)

/-! ## `ConvMatrix` reads the first `Cols` cells of each row -/

theorem ConvMatrix.rowOutcome_take {ε α β : Type} (parseFloat : String → Except ε α)
    (float32 : α → β) (n : Nat) (row : List String) (h : n ≤ row.length) :
    (ConvMatrix.rowOutcome parseFloat float32 n (row.take n) : Except Fault (Except ε (List β)))
      = ConvMatrix.rowOutcome parseFloat float32 n row := by
  unfold ConvMatrix.rowOutcome
  rw [List.take_take, Nat.min_self, List.length_take]
  have h1 : ¬ min n row.length < n := by omega
  have h2 : ¬ row.length < n := by omega
  simp only [h1, h2, if_false]

theorem ConvMatrix.tableOutcome_take {ε α β : Type} (parseFloat : String → Except ε α)
    (float32 : α → β) (n : Nat) (t : DataFrame) (h : ∀ row ∈ t, n ≤ row.length) :
    (ConvMatrix.tableOutcome parseFloat float32 n (t.map (fun row => row.take n)) :
        Except Fault (Except ε (Matrix β)))
      = ConvMatrix.tableOutcome parseFloat float32 n t := by
  induction t with
  | nil => rfl
  | cons row rest ih =>
    rw [List.map_cons, ConvMatrix.tableOutcome_cons, ConvMatrix.tableOutcome_cons,
      ConvMatrix.rowOutcome_take parseFloat float32 n row (h row (List.mem_cons_self row rest)),
      ih (fun r hr => h r (List.mem_cons_of_mem row hr))]

theorem ConvMatrix.tableOutcome_zero {ε α β : Type} (parseFloat : String → Except ε α)
    (float32 : α → β) (t : DataFrame) :
    (ConvMatrix.tableOutcome parseFloat float32 0 t : Except Fault (Except ε (Matrix β)))
      = .ok (.ok (List.replicate t.length [])) := by
  induction t with
  | nil => rfl
  | cons row rest ih =>
    rw [ConvMatrix.tableOutcome_cons, ih]
    simp [ConvMatrix.rowOutcome, ConvMatrix.parseCells, List.replicate_succ]

theorem ConvMatrix.tableOutcome_of_accepted {ε α β : Type} (parseFloat : String → Except ε α)
    (float32 : α → β) (n : Nat) (t : DataFrame) (h : ∀ row ∈ t, n ≤ row.length)
    (hacc : ∀ row ∈ t, ∀ s ∈ row.take n, ∃ a, parseFloat s = .ok a) :
    ∃ m : Matrix β, ConvMatrix.tableOutcome parseFloat float32 n t = .ok (.ok m) := by
  induction t with
  | nil => exact ⟨[], rfl⟩
  | cons row rest ih =>
    obtain ⟨vals, hvals⟩ := ConvMatrix.parseCells_of_accepted parseFloat float32 (row.take n)
      (hacc row (List.mem_cons_self row rest))
    obtain ⟨m, hm⟩ := ih (fun r hr => h r (List.mem_cons_of_mem row hr))
      (fun r hr => hacc r (List.mem_cons_of_mem row hr))
    have hlen : ¬ row.length < n := by
      have := h row (List.mem_cons_self row rest)
      omega
    refine ⟨vals :: m, ?_⟩
    rw [ConvMatrix.tableOutcome_cons]
    unfold ConvMatrix.rowOutcome
    rw [hvals]
    simp only []
    rw [if_neg hlen]
    simp only []
    rw [hm]

theorem Cols_map_take (t : DataFrame) :
    Cols (t.map (fun row => row.take (Cols t).toNat)) = Cols t := by
  cases t with
  | nil => rfl
  | cons row0 rest => simp [Cols]

/-- C20: on a table whose rows all have at least `Cols(t)` cells, `ConvMatrix`
gives the same outcome as on the table with every row cut to its first
`Cols(t)` cells; it succeeds as soon as the cells in those first `Cols(t)`
columns parse, whatever lies beyond them; and when row 0 is empty it returns the
matrix of `Rows(t)` rows without columns. -/
theorem ConvMatrix_truncate {ε α β : Type} (parseFloat : String → Except ε α)
    (float32 : α → β) (zero : β) (t : DataFrame)
    (h : ∀ row ∈ t, Cols t ≤ (row.length : Int)) :
    ConvMatrix parseFloat float32 zero t
        = ConvMatrix parseFloat float32 zero (t.map (fun row => row.take (Cols t).toNat)) ∧
      ((∀ row ∈ t, ∀ s ∈ row.take (Cols t).toNat, ∃ a, parseFloat s = .ok a) →
        ∃ m : Matrix β, ConvMatrix parseFloat float32 zero t = .ok (.ok m)) ∧
      (Cols t = 0 →
        ConvMatrix parseFloat float32 zero t = .ok (.ok (List.replicate t.length []))) := by
  have hn := Cols_nonneg t
  have h' : ∀ row ∈ t, (Cols t).toNat ≤ row.length := by
    intro row hrow
    have := h row hrow
    omega
  refine ⟨?_, ?_, ?_⟩
  · rw [ConvMatrix_eq_tableOutcome, ConvMatrix_eq_tableOutcome, Cols_map_take,
      ConvMatrix.tableOutcome_take parseFloat float32 _ t h']
  · intro hacc
    rw [ConvMatrix_eq_tableOutcome]
    exact ConvMatrix.tableOutcome_of_accepted parseFloat float32 _ t h' hacc
  · intro h0
    rw [ConvMatrix_eq_tableOutcome, h0]
    exact ConvMatrix.tableOutcome_zero parseFloat float32 t

/-- Witness for `ConvMatrix_truncate`: a table whose second row carries an
unparseable cell beyond the width of row 0. -/
theorem ConvMatrix_truncate_witness :
    ConvMatrix parseDigit id 0 [["1"], ["2", "x"]]
        = ConvMatrix parseDigit id 0
            (([["1"], ["2", "x"]] : DataFrame).map
              (fun row => row.take (Cols [["1"], ["2", "x"]]).toNat)) ∧
      ((∀ row ∈ ([["1"], ["2", "x"]] : DataFrame),
          ∀ s ∈ row.take (Cols [["1"], ["2", "x"]]).toNat, ∃ a, parseDigit s = .ok a) →
        ∃ m : Matrix Int, ConvMatrix parseDigit id 0 [["1"], ["2", "x"]] = .ok (.ok m)) ∧
      (Cols [["1"], ["2", "x"]] = 0 →
        ConvMatrix parseDigit id 0 [["1"], ["2", "x"]]
          = .ok (.ok (List.replicate ([["1"], ["2", "x"]] : DataFrame).length []))) :=
  ConvMatrix_truncate parseDigit id 0 [["1"], ["2", "x"]] (by decide)

/-! ## `DropColumn`: when it returns and what it returns -/

theorem DropColumn.max_spec :
    ∀ (l : List Int) (m : Int),
      m ≤ l.foldl (fun max value => if value > max then value else max) m ∧
      (∀ v ∈ l, v ≤ l.foldl (fun max value => if value > max then value else max) m) ∧
      (l.foldl (fun max value => if value > max then value else max) m = m ∨
        l.foldl (fun max value => if value > max then value else max) m ∈ l) := by
  intro l
  induction l with
  | nil => intro m; simp
  | cons a l ih =>
    intro m
    rw [List.foldl_cons]
    by_cases ham : a > m
    · rw [if_pos ham]
      obtain ⟨h1, h2, h3⟩ := ih a
      refine ⟨by omega, ?_, ?_⟩
      · intro v hv
        rcases List.mem_cons.mp hv with rfl | hv'
        · exact h1
        · exact h2 v hv'
      · right
        rcases h3 with h3 | h3
        · rw [h3]
          exact List.mem_cons_self a l
        · exact List.mem_cons_of_mem a h3
    · rw [if_neg ham]
      obtain ⟨h1, h2, h3⟩ := ih m
      refine ⟨h1, ?_, ?_⟩
      · intro v hv
        rcases List.mem_cons.mp hv with rfl | hv'
        · omega
        · exact h2 v hv'
      · rcases h3 with h3 | h3
        · exact Or.inl h3
        · exact Or.inr (List.mem_cons_of_mem a h3)

theorem DropColumn.count_step (arr : List Int) (v : Int) (h0 : 0 ≤ v)
    (h1 : v.toNat < arr.length) :
    (do
      let a ← index arr v
      setIndex arr v (wrapInt64 (a + 1)))
      = Except.ok (arr.set v.toNat (wrapInt64 (arr[v.toNat] + 1))) := by
  rw [index_of_inRange arr v arr[v.toNat] h0 (List.getElem?_eq_getElem h1), ok_bind]
  unfold setIndex
  rw [if_neg (not_lt.mpr h0), putAt_of_lt _ _ _ h1]

theorem DropColumn.count_length :
    ∀ (l : List Int) (arr : List Int), (∀ v ∈ l, 0 ≤ v ∧ v < (arr.length : Int)) →
      ∃ arr', l.foldlM (fun arr value => do
        let a ← index arr value
        setIndex arr value (wrapInt64 (a + 1))) arr = .ok arr' ∧ arr'.length = arr.length := by
  intro l
  induction l with
  | nil => intro arr _; exact ⟨arr, rfl, rfl⟩
  | cons v l ih =>
    intro arr h
    obtain ⟨h0, h1⟩ := h v (List.mem_cons_self v l)
    have hlt : v.toNat < arr.length := by omega
    rw [List.foldlM_cons, DropColumn.count_step arr v h0 hlt, ok_bind]
    obtain ⟨arr', h2, h3⟩ := ih (arr.set v.toNat (wrapInt64 (arr[v.toNat] + 1)))
      (fun w hw => by simpa using h w (List.mem_cons_of_mem v hw))
    exact ⟨arr', h2, by simpa using h3⟩

theorem DropColumn.count_of_outOfRange :
    ∀ (l : List Int) (arr : List Int), (∃ v ∈ l, v < 0 ∨ (arr.length : Int) ≤ v) →
      l.foldlM (fun arr value => do
        let a ← index arr value
        setIndex arr value (wrapInt64 (a + 1))) arr = .error .indexOutOfRange := by
  intro l
  induction l with
  | nil =>
    intro arr h
    obtain ⟨v, hv, _⟩ := h
    cases hv
  | cons a l ih =>
    intro arr h
    rw [List.foldlM_cons]
    by_cases ha : a < 0 ∨ (arr.length : Int) ≤ a
    · rw [index_of_outOfRange arr a ha]
      rfl
    · have h0 : 0 ≤ a := by omega
      have hlt : a.toNat < arr.length := by omega
      rw [DropColumn.count_step arr a h0 hlt, ok_bind]
      apply ih
      obtain ⟨v, hv, hbad⟩ := h
      rcases List.mem_cons.mp hv with rfl | hv'
      · exact absurd hbad ha
      · exact ⟨v, hv', by simpa using hbad⟩

theorem wrapInt64_succ_of_bound (x : Int) (h0 : 0 ≤ x) (h1 : x + 1 ≤ 9223372036854775807) :
    wrapInt64 (x + 1) = x + 1 := by
  unfold wrapInt64
  omega

theorem DropColumn.count_positive :
    ∀ (l : List Int) (arr : List Int), (∀ v ∈ l, 0 ≤ v ∧ v < (arr.length : Int)) →
      (∀ x ∈ arr, 0 ≤ x ∧ x + (l.length : Int) ≤ 9223372036854775807) →
      ∃ arr', l.foldlM (fun arr value => do
        let a ← index arr value
        setIndex arr value (wrapInt64 (a + 1))) arr = .ok arr' ∧ arr'.length = arr.length ∧
        ∀ j : Nat, 0 < (arr'[j]?).getD 0 ↔ (0 < (arr[j]?).getD 0 ∨ (j : Int) ∈ l) := by
  intro l
  induction l with
  | nil =>
    intro arr _ _
    exact ⟨arr, rfl, rfl, fun j => by simp⟩
  | cons v l ih =>
    intro arr h hb
    obtain ⟨h0, h1⟩ := h v (List.mem_cons_self v l)
    have hlt : v.toNat < arr.length := by omega
    have hbv := hb arr[v.toNat] (List.getElem_mem hlt)
    have hlen : ((v :: l).length : Int) = (l.length : Int) + 1 := by simp
    rw [hlen] at hbv
    have hw : wrapInt64 (arr[v.toNat] + 1) = arr[v.toNat] + 1 :=
      wrapInt64_succ_of_bound _ hbv.1 (by omega)
    rw [List.foldlM_cons, DropColumn.count_step arr v h0 hlt, ok_bind, hw]
    obtain ⟨arr', h2, h3, h4⟩ := ih (arr.set v.toNat (arr[v.toNat] + 1))
      (fun w hw' => by simpa using h w (List.mem_cons_of_mem v hw'))
      (fun x hx => by
        rcases List.mem_or_eq_of_mem_set hx with hx' | hx'
        · have := hb x hx'
          rw [hlen] at this
          omega
        · subst hx'
          omega)
    refine ⟨arr', h2, by simpa using h3, ?_⟩
    intro j
    rw [h4 j, List.mem_cons]
    by_cases hj : v.toNat = j
    · subst hj
      have e1 : ((arr.set v.toNat (arr[v.toNat] + 1))[v.toNat]?).getD 0 = arr[v.toNat] + 1 := by
        rw [List.getElem?_set_self hlt]
        rfl
      have e2 : ((v.toNat : Nat) : Int) = v := Int.toNat_of_nonneg h0
      rw [e1, e2]
      constructor
      · intro _
        exact Or.inr (Or.inl rfl)
      · intro _
        left
        omega
    · rw [List.getElem?_set_ne hj]
      have hne : (j : Int) ≠ v := by omega
      constructor
      · rintro (h5 | h5)
        · exact Or.inl h5
        · exact Or.inr (Or.inr h5)
      · rintro (h5 | h5 | h5)
        · exact Or.inl h5
        · exact absurd h5 hne
        · exact Or.inr h5

theorem DropColumn.inner_succ (d : DataFrame) (arr : List Int) (j k i : Nat)
    (result : DataFrame) :
    DropColumn.inner d arr j (k + 1) i result
      = (elemAt arr j >>= fun a =>
          if a > 0 then .ok result
          else
            elemAt result i >>= fun ri => elemAt d i >>= fun di => elemAt di j >>= fun dij =>
              putAt result i (ri ++ [dij]) >>= fun result =>
                DropColumn.inner d arr j k (i + 1) result) := rfl

theorem DropColumn.inner_break (d : DataFrame) (arr : List Int) (j : Nat) (a : Int)
    (ha : arr[j]? = some a) (hpos : 0 < a) (k i : Nat) (result : DataFrame) :
    DropColumn.inner d arr j k i result = .ok result := by
  cases k with
  | zero => rfl
  | succ k =>
    rw [DropColumn.inner_succ, elemAt_of_getElem? arr j a ha, ok_bind, if_pos hpos]

theorem DropColumn.inner_fail (d : DataFrame) (arr : List Int) (j : Nat)
    (ha : arr.length ≤ j) (k i : Nat) (result : DataFrame) :
    DropColumn.inner d arr j (k + 1) i result = .error .indexOutOfRange := by
  rw [DropColumn.inner_succ, elemAt_of_le arr j ha]
  rfl

theorem DropColumn.inner_error_eq (d : DataFrame) (arr : List Int) (j : Nat) (e : Fault) :
    ∀ (k i : Nat) (result : DataFrame),
      DropColumn.inner d arr j k i result = .error e → e = .indexOutOfRange := by
  intro k
  induction k with
  | zero => intro i result h; cases h
  | succ k ih =>
    intro i result h
    rw [DropColumn.inner_succ] at h
    cases h1 : elemAt arr j with
    | error e1 =>
      rw [h1] at h
      have : e1 = .indexOutOfRange := by
        unfold elemAt at h1
        split at h1
        · cases h1
        · injection h1 with h1; exact h1.symm
      subst this
      injection h with h
      exact h.symm
    | ok a =>
      rw [h1, ok_bind] at h
      by_cases hpos : a > 0
      · rw [if_pos hpos] at h; cases h
      · rw [if_neg hpos] at h
        have helem : ∀ {γ : Type} (xs : List γ) (n : Nat) (e1 : Fault),
            elemAt xs n = .error e1 → e1 = .indexOutOfRange := by
          intro γ xs n e1 h'
          unfold elemAt at h'
          split at h'
          · cases h'
          · injection h' with h'; exact h'.symm
        cases h2 : elemAt result i with
        | error e2 =>
          rw [h2] at h
          have := helem _ _ _ h2
          subst this
          injection h with h
          exact h.symm
        | ok ri =>
          rw [h2, ok_bind] at h
          cases h3 : elemAt d i with
          | error e3 =>
            rw [h3] at h
            have := helem _ _ _ h3
            subst this
            injection h with h
            exact h.symm
          | ok di =>
            rw [h3, ok_bind] at h
            cases h4 : elemAt di j with
            | error e4 =>
              rw [h4] at h
              have := helem _ _ _ h4
              subst this
              injection h with h
              exact h.symm
            | ok dij =>
              rw [h4, ok_bind] at h
              cases h5 : putAt result i (ri ++ [dij]) with
              | error e5 =>
                rw [h5] at h
                have := putAt_error_eq _ _ _ _ h5
                subst this
                injection h with h
                exact h.symm
              | ok result' =>
                rw [h5, ok_bind] at h
                exact ih _ _ h

theorem DropColumn.inner_append (d : DataFrame) (arr : List Int) (j : Nat) (a : Int)
    (ha : arr[j]? = some a) (hnot : ¬ 0 < a) (hcells : ∀ row ∈ d, j < row.length) :
    ∀ (k i : Nat) (result : DataFrame), i + k = d.length → result.length = d.length →
      DropColumn.inner d arr j k i result
        = .ok (result.take i ++ List.zipWith (fun r row => r ++ [(row[j]?).getD ""])
            (result.drop i) (d.drop i)) := by
  intro k
  induction k with
  | zero =>
    intro i result hi hlen
    rw [List.drop_eq_nil_of_le (by omega), List.drop_eq_nil_of_le (by omega),
      List.take_of_length_le (by omega)]
    simp [DropColumn.inner]
  | succ k ih =>
    intro i result hi hlen
    have hid : i < d.length := by omega
    have hir : i < result.length := by omega
    have hj : j < d[i].length := hcells d[i] (List.getElem_mem hid)
    rw [DropColumn.inner_succ, elemAt_of_getElem? arr j a ha, ok_bind, if_neg hnot,
      elemAt_of_lt result i hir, ok_bind, elemAt_of_lt d i hid, ok_bind,
      elemAt_of_lt d[i] j hj, ok_bind, putAt_of_lt result i _ hir, ok_bind,
      ih (i + 1) _ (by omega) (by simpa using hlen), take_succ_set result i _ hir,
      List.drop_set_of_lt _ _ (by omega), List.drop_eq_getElem_cons hir,
      List.drop_eq_getElem_cons hid, List.zipWith_cons_cons]
    simp [List.getElem?_eq_getElem hj]

theorem zipWith_map_self {α β γ : Type} (f : β → α → γ) (g : α → β) (l : List α) :
    List.zipWith f (l.map g) l = l.map (fun x => f (g x) x) := by
  induction l with
  | nil => rfl
  | cons a l ih => simp [ih]

theorem forLoop_error_of {σ : Type} (body : Nat → σ → Except Fault σ) (e : Fault)
    (herr : ∀ i s e', body i s = .error e' → e' = e) (i0 : Nat)
    (hfail : ∀ s, body i0 s = .error e) :
    ∀ (k i : Nat) (s : σ), i ≤ i0 → i0 < i + k → forLoop body k i s = .error e := by
  intro k
  induction k with
  | zero => intro i s h1 h2; omega
  | succ k ih =>
    intro i s h1 h2
    rw [forLoop_succ]
    by_cases hi : i = i0
    · subst hi
      rw [hfail s]
      rfl
    · cases hb : body i s with
      | error e' =>
        rw [herr i s e' hb]
        rfl
      | ok s' =>
        rw [ok_bind]
        exact ih (i + 1) s' (by omega) (by omega)

theorem DropColumn.outer_keep (d : DataFrame) (arr : List Int) (n : Nat)
    (hrect : ∀ row ∈ d, row.length = n) (harr : n ≤ arr.length) :
    ∀ (k j : Nat), j + k = n →
      forLoop (fun j result => DropColumn.inner d arr j d.length 0 result) k j
        (d.map (fun row =>
          ((List.range j).filter (fun p : Nat => decide (¬ 0 < (arr[p]?).getD 0))).map
            (fun p : Nat => (row[p]?).getD "")))
        = .ok (d.map (fun row =>
          ((List.range n).filter (fun p : Nat => decide (¬ 0 < (arr[p]?).getD 0))).map
            (fun p : Nat => (row[p]?).getD ""))) := by
  intro k
  induction k with
  | zero =>
    intro j hj
    have : j = n := by omega
    subst this
    rfl
  | succ k ih =>
    intro j hj
    have hja : j < arr.length := by omega
    rw [forLoop_succ]
    by_cases hpos : 0 < arr[j]
    · rw [DropColumn.inner_break d arr j arr[j] (List.getElem?_eq_getElem hja) hpos, ok_bind]
      have hstep : ∀ row : List String,
          ((List.range (j + 1)).filter (fun p : Nat => decide (¬ 0 < (arr[p]?).getD 0))).map
            (fun p : Nat => (row[p]?).getD "")
          = ((List.range j).filter (fun p : Nat => decide (¬ 0 < (arr[p]?).getD 0))).map
            (fun p : Nat => (row[p]?).getD "") := by
        intro row
        rw [List.range_succ, List.filter_append]
        simp [List.getElem?_eq_getElem hja, hpos]
      have := ih (j + 1) (by omega)
      simp only [hstep] at this
      exact this
    · rw [DropColumn.inner_append d arr j arr[j] (List.getElem?_eq_getElem hja) hpos
        (fun row hrow => by have := hrect row hrow; omega) d.length 0 _ (by omega) (by simp),
        ok_bind, List.take_zero, List.nil_append, List.drop_zero, List.drop_zero,
        zipWith_map_self]
      have hstep : ∀ row : List String,
          ((List.range (j + 1)).filter (fun p : Nat => decide (¬ 0 < (arr[p]?).getD 0))).map
            (fun p : Nat => (row[p]?).getD "")
          = ((List.range j).filter (fun p : Nat => decide (¬ 0 < (arr[p]?).getD 0))).map
            (fun p : Nat => (row[p]?).getD "") ++ [(row[j]?).getD ""] := by
        intro row
        have hle : (arr[j]?).getD 0 ≤ 0 := by
          rw [List.getElem?_eq_getElem hja]
          show arr[j] ≤ 0
          omega
        rw [List.range_succ, List.filter_append]
        simp [List.filter_cons, hle]
      have := ih (j + 1) (by omega)
      simp only [hstep] at this
      exact this

theorem DropColumn.outer_fail (d : DataFrame) (arr : List Int) (n : Nat) (hd : d ≠ [])
    (harr : arr.length < n) (result : DataFrame) :
    forLoop (fun j result => DropColumn.inner d arr j d.length 0 result) n 0 result
      = .error .indexOutOfRange := by
  obtain ⟨m, hm⟩ : ∃ m, d.length = m + 1 := by
    cases d with
    | nil => exact absurd rfl hd
    | cons a l => exact ⟨l.length, rfl⟩
  apply forLoop_error_of _ _ _ arr.length
  · intro s
    rw [hm]
    exact DropColumn.inner_fail d arr arr.length (le_refl _) m 0 s
  · omega
  · omega
  · intro i s e' h
    exact DropColumn.inner_error_eq d arr i e' _ _ _ h

theorem DropColumn.unfold_cons (d : DataFrame) (a : Int) (l : List Int) :
    DropColumn d (a :: l)
      = (makeSlice 8 (0 : Int)
            (.ofInt (wrapInt64
              ((a :: l).foldl (fun max value => if value > max then value else max) a + 1)))
          >>= fun arr =>
          (a :: l).foldlM (fun arr value => do
            let a ← index arr value
            setIndex arr value (wrapInt64 (a + 1))) arr >>= fun arr =>
          elemAt d 0 >>= fun d0 =>
          forLoop (fun j result => DropColumn.inner d arr j d.length 0 result) d0.length 0
            (List.replicate d.length [])) := by
  unfold DropColumn
  rw [makeSlice_ofLen, ok_bind, DropColumn.f_cons a l, ok_bind]

theorem DropColumn.error_of_empty (d : DataFrame) :
    DropColumn d [] = .error .indexOutOfRange := by
  unfold DropColumn
  rw [makeSlice_ofLen, ok_bind]
  rfl

theorem DropColumn.error_of_maskLen (d : DataFrame) (a : Int) (l : List Int)
    (h : wrapInt64 ((a :: l).foldl (fun max value => if value > max then value else max) a + 1)
        < 0 ∨
      (maxAlloc : Int) < wrapInt64
        ((a :: l).foldl (fun max value => if value > max then value else max) a + 1) * 8) :
    DropColumn d (a :: l) = .error .makeSliceLen := by
  rw [DropColumn.unfold_cons, makeSlice_of_outOfRange 8 _ _ (by push_cast; exact h)]
  rfl

theorem DropColumn.error_of_count (d : DataFrame) (a : Int) (l : List Int)
    (h0 : 0 ≤ wrapInt64
      ((a :: l).foldl (fun max value => if value > max then value else max) a + 1))
    (hfit : wrapInt64
      ((a :: l).foldl (fun max value => if value > max then value else max) a + 1) * 8
        ≤ (maxAlloc : Int))
    (hbad : ∃ v ∈ a :: l, v < 0 ∨ wrapInt64
      ((a :: l).foldl (fun max value => if value > max then value else max) a + 1) ≤ v) :
    DropColumn d (a :: l) = .error .indexOutOfRange := by
  rw [DropColumn.unfold_cons, makeSlice_of_fits 8 _ _ h0 (by push_cast; exact hfit), ok_bind,
    DropColumn.count_of_outOfRange (a :: l) _ (by
      obtain ⟨v, hv, hv'⟩ := hbad
      refine ⟨v, hv, ?_⟩
      rw [List.length_replicate, Int.toNat_of_nonneg h0]
      exact hv')]
  rfl

theorem DropColumn.error_of_short (d : DataFrame) (a : Int) (l : List Int) (n : Nat)
    (hd : d ≠ []) (hrect : ∀ row ∈ d, row.length = n)
    (h0 : 0 ≤ wrapInt64
      ((a :: l).foldl (fun max value => if value > max then value else max) a + 1))
    (hfit : wrapInt64
      ((a :: l).foldl (fun max value => if value > max then value else max) a + 1) * 8
        ≤ (maxAlloc : Int))
    (hin : ∀ v ∈ a :: l, 0 ≤ v ∧ v < wrapInt64
      ((a :: l).foldl (fun max value => if value > max then value else max) a + 1))
    (hshort : wrapInt64
      ((a :: l).foldl (fun max value => if value > max then value else max) a + 1) < (n : Int)) :
    DropColumn d (a :: l) = .error .indexOutOfRange := by
  obtain ⟨arr', h1, h2⟩ := DropColumn.count_length (a :: l)
    (List.replicate (wrapInt64
      ((a :: l).foldl (fun max value => if value > max then value else max) a + 1)).toNat 0)
    (by
      intro v hv
      rw [List.length_replicate, Int.toNat_of_nonneg h0]
      exact hin v hv)
  rw [List.length_replicate] at h2
  cases d with
  | nil => exact absurd rfl hd
  | cons d0 rest =>
    have hd0 : d0.length = n := hrect d0 (List.mem_cons_self d0 rest)
    rw [DropColumn.unfold_cons, makeSlice_of_fits 8 _ _ h0 (by push_cast; exact hfit), ok_bind,
      h1, ok_bind, elemAt_of_lt (d0 :: rest) 0 (by simp), ok_bind]
    show forLoop _ d0.length 0 _ = _
    rw [hd0]
    exact DropColumn.outer_fail (d0 :: rest) arr' n hd (by omega) _

theorem map_nil_eq_replicate {α β : Type} (l : List α) :
    l.map (fun _ => ([] : List β)) = List.replicate l.length [] := by
  induction l with
  | nil => rfl
  | cons a l ih => simp [List.replicate_succ, ih]

theorem DropColumn.ok_of (d : DataFrame) (a : Int) (l : List Int) (n : Nat)
    (hd : d ≠ []) (hrect : ∀ row ∈ d, row.length = n)
    (h0 : 0 ≤ wrapInt64
      ((a :: l).foldl (fun max value => if value > max then value else max) a + 1))
    (hfit : wrapInt64
      ((a :: l).foldl (fun max value => if value > max then value else max) a + 1) * 8
        ≤ (maxAlloc : Int))
    (hin : ∀ v ∈ a :: l, 0 ≤ v ∧ v < wrapInt64
      ((a :: l).foldl (fun max value => if value > max then value else max) a + 1))
    (hlong : (n : Int) ≤ wrapInt64
      ((a :: l).foldl (fun max value => if value > max then value else max) a + 1)) :
    ∃ arr' : List Int,
      (a :: l).foldlM (fun arr value => do
        let a ← index arr value
        setIndex arr value (wrapInt64 (a + 1)))
        (List.replicate (wrapInt64
          ((a :: l).foldl (fun max value => if value > max then value else max) a + 1)).toNat 0)
        = .ok arr' ∧
      DropColumn d (a :: l) = .ok (d.map (fun row =>
        ((List.range n).filter (fun p : Nat => decide (¬ 0 < (arr'[p]?).getD 0))).map
          (fun p : Nat => (row[p]?).getD ""))) := by
  obtain ⟨arr', h1, h2⟩ := DropColumn.count_length (a :: l)
    (List.replicate (wrapInt64
      ((a :: l).foldl (fun max value => if value > max then value else max) a + 1)).toNat 0)
    (by
      intro v hv
      rw [List.length_replicate, Int.toNat_of_nonneg h0]
      exact hin v hv)
  rw [List.length_replicate] at h2
  refine ⟨arr', h1, ?_⟩
  cases d with
  | nil => exact absurd rfl hd
  | cons d0 rest =>
    have hd0 : d0.length = n := hrect d0 (List.mem_cons_self d0 rest)
    rw [DropColumn.unfold_cons, makeSlice_of_fits 8 _ _ h0 (by push_cast; exact hfit), ok_bind,
      h1, ok_bind, elemAt_of_lt (d0 :: rest) 0 (by simp), ok_bind]
    show forLoop _ d0.length 0 _ = _
    rw [hd0]
    have := DropColumn.outer_keep (d0 :: rest) arr' n hrect (by omega) n 0 (by omega)
    simp only [List.range_zero, List.filter_nil, List.map_nil] at this
    rw [map_nil_eq_replicate] at this
    exact this

theorem DropColumn.error_of_no_rows (idx : List Int) :
    ∃ e, DropColumn [] idx = .error e := by
  cases idx with
  | nil => exact ⟨_, DropColumn.error_of_empty []⟩
  | cons a l =>
    rw [DropColumn.unfold_cons]
    cases makeSlice 8 (0 : Int)
      (.ofInt (wrapInt64
        ((a :: l).foldl (fun max value => if value > max then value else max) a + 1))) with
    | error e => exact ⟨e, rfl⟩
    | ok arr =>
      rw [ok_bind]
      cases (a :: l).foldlM (fun arr value => do
        let a ← index arr value
        setIndex arr value (wrapInt64 (a + 1))) arr with
      | error e => exact ⟨e, rfl⟩
      | ok arr' => exact ⟨.indexOutOfRange, rfl⟩

/-- C17 (as amended): on a rectangular table with at least one row,
`DropColumn(t, idx)` returns a table exactly when `idx` is non-empty, every
index is at least 0, some index is at least `Cols(t) - 1`, and the mask of
`max(idx) + 1` cells of 8 bytes is within the allocation limit of `make`
(`(v + 1) * 8 ≤ maxAlloc` for every index `v`, that is `max(idx) < 2^45`); on a
table without rows it always panics. -/
theorem DropColumn_success_iff (t : DataFrame) (idx : List Int)
    (hrect : ∀ row ∈ t, (row.length : Int) = Cols t) :
    (t = [] → ∃ e, DropColumn t idx = .error e) ∧
      (t ≠ [] →
        ((∃ res : DataFrame, DropColumn t idx = .ok res) ↔
          (idx ≠ [] ∧ (∀ v ∈ idx, 0 ≤ v) ∧ (∃ v ∈ idx, Cols t - 1 ≤ v) ∧
            ∀ v ∈ idx, (v + 1) * 8 ≤ (maxAlloc : Int)))) := by
  constructor
  · intro ht
    subst ht
    exact DropColumn.error_of_no_rows idx
  · intro ht
    have hn := Cols_nonneg t
    have hrect' : ∀ row ∈ t, row.length = (Cols t).toNat := by
      intro row hrow
      have := hrect row hrow
      omega
    cases idx with
    | nil =>
      constructor
      · rintro ⟨res, hres⟩
        rw [DropColumn.error_of_empty] at hres
        cases hres
      · rintro ⟨h, _⟩
        exact absurd rfl h
    | cons a l =>
      obtain ⟨_, hm2, hm3⟩ := DropColumn.max_spec (a :: l) a
      have hmem : (a :: l).foldl (fun max value => if value > max then value else max) a
          ∈ a :: l := by
        rcases hm3 with h | h
        · rw [h]
          exact List.mem_cons_self a l
        · exact h
      constructor
      · rintro ⟨res, hres⟩
        have hL : 0 ≤ wrapInt64
              ((a :: l).foldl (fun max value => if value > max then value else max) a + 1) ∧
            wrapInt64
              ((a :: l).foldl (fun max value => if value > max then value else max) a + 1) * 8
              ≤ (maxAlloc : Int) := by
          by_contra hcon
          rw [DropColumn.error_of_maskLen t a l (by omega)] at hres
          cases hres
        have hin : ∀ v ∈ a :: l, 0 ≤ v ∧ v < wrapInt64
            ((a :: l).foldl (fun max value => if value > max then value else max) a + 1) := by
          intro v hv
          by_contra hcon
          rw [DropColumn.error_of_count t a l hL.1 hL.2 ⟨v, hv, by omega⟩] at hres
          cases hres
        have hlong : ((Cols t).toNat : Int) ≤ wrapInt64
            ((a :: l).foldl (fun max value => if value > max then value else max) a + 1) := by
          by_contra hcon
          rw [DropColumn.error_of_short t a l (Cols t).toNat ht hrect' hL.1 hL.2 hin
            (by omega)] at hres
          cases hres
        have hM := hin _ hmem
        obtain ⟨_, hL2⟩ := hL
        unfold wrapInt64 at hM hlong hL2
        unfold maxAlloc at hL2 ⊢
        refine ⟨by simp, fun v hv => (hin v hv).1, ⟨_, hmem, by omega⟩, ?_⟩
        intro v hv
        have := hm2 v hv
        omega
      · rintro ⟨_, hnn, ⟨v, hv, hvc⟩, hmax⟩
        have hM0 := hnn _ hmem
        have hMmax := hmax _ hmem
        have hMmax' := hMmax
        unfold maxAlloc at hMmax'
        have hw := wrapInt64_succ_of_bound _ hM0 (by omega)
        have hvM := hm2 v hv
        obtain ⟨arr', _, hres⟩ := DropColumn.ok_of t a l (Cols t).toNat ht hrect'
          (by rw [hw]; omega)
          (by rw [hw]; exact hMmax)
          (fun w hw' => by
            have := hm2 w hw'
            have := hnn w hw'
            rw [hw]
            omega)
          (by rw [hw]; omega)
        exact ⟨_, hres⟩

/-- Witness for `DropColumn_success_iff`: a 2-by-2 table and the index list
`[1]`. -/
theorem DropColumn_success_iff_witness :
    (([["a", "b"], ["c", "d"]] : DataFrame) = [] →
        ∃ e, DropColumn [["a", "b"], ["c", "d"]] [1] = .error e) ∧
      (([["a", "b"], ["c", "d"]] : DataFrame) ≠ [] →
        ((∃ res : DataFrame, DropColumn [["a", "b"], ["c", "d"]] [1] = .ok res) ↔
          (([1] : List Int) ≠ [] ∧ (∀ v ∈ ([1] : List Int), 0 ≤ v) ∧
            (∃ v ∈ ([1] : List Int), Cols [["a", "b"], ["c", "d"]] - 1 ≤ v) ∧
            ∀ v ∈ ([1] : List Int), (v + 1) * 8 ≤ (maxAlloc : Int)))) :=
  DropColumn_success_iff [["a", "b"], ["c", "d"]] [1] (by decide)

/-- C17 (counterexample): the indices `2^63 - 1`, `2^63 - 2` and `2^45` are
non-negative and at least `Cols(t) - 1`, yet `DropColumn` panics in `make`: the
mask length `max + 1` wraps around to a negative number, or its 8-byte cells
exceed the allocation limit. -/
theorem DropColumn_largest_int :
    Cols [["a"]] - 1 ≤ 9223372036854775807 ∧
      DropColumn [["a"]] [9223372036854775807] = .error .makeSliceLen ∧
      DropColumn [["a", "b"]] [9223372036854775806] = .error .makeSliceLen ∧
      DropColumn [["a", "b"]] [35184372088832] = .error .makeSliceLen := by
  decide

theorem DropColumn.keep_filter (idx : List Int) (n : Nat) (row : List String) :
    DropColumn.keep (idx.filter (fun v => decide (v < (n : Int)))) n row
      = DropColumn.keep idx n row := by
  unfold DropColumn.keep
  congr 1
  apply List.filter_congr
  intro p hp
  have hp' := List.mem_range.mp hp
  have : ((p : Int) ∈ idx.filter (fun v => decide (v < (n : Int)))) ↔ (p : Int) ∈ idx := by
    rw [List.mem_filter]
    constructor
    · intro h; exact h.1
    · intro h; exact ⟨h, by simp; omega⟩
  simp [this]

theorem DropColumn.keep_length (idx : List Int) (n : Nat) (row : List String)
    (hnn : ∀ v ∈ idx, 0 ≤ v) :
    (DropColumn.keep idx n row).length + ((idx.filter (fun v => decide (v < (n : Int)))).dedup).length
      = n := by
  unfold DropColumn.keep
  rw [List.length_map]
  have hsplit := List.length_eq_length_filter_add (l := List.range n)
    (fun j : Nat => decide ((j : Int) ∈ idx))
  rw [List.length_range] at hsplit
  have hneg : (List.range n).filter (fun j : Nat => decide ((j : Int) ∉ idx))
      = (List.range n).filter (fun j : Nat => !decide ((j : Int) ∈ idx)) := by
    apply List.filter_congr
    intro p _
    simp
  have hperm : List.Perm
      (((List.range n).filter (fun j : Nat => decide ((j : Int) ∈ idx))).map
        (fun j : Nat => (j : Int)))
      ((idx.filter (fun v => decide (v < (n : Int)))).dedup) := by
    rw [List.perm_ext_iff_of_nodup
      (List.Nodup.map (fun x y hxy => by exact_mod_cast hxy)
        (List.Nodup.filter _ (List.nodup_range n)))
      (List.nodup_dedup _)]
    intro x
    rw [List.mem_map, List.mem_dedup, List.mem_filter]
    constructor
    · rintro ⟨j, hj, rfl⟩
      obtain ⟨hj1, hj2⟩ := List.mem_filter.mp hj
      have hj1' := List.mem_range.mp hj1
      exact ⟨by simpa using hj2, by simp; omega⟩
    · rintro ⟨hx, hxn⟩
      have hx0 := hnn x hx
      have hxn' : x < (n : Int) := by simpa using hxn
      refine ⟨x.toNat, ?_, Int.toNat_of_nonneg hx0⟩
      rw [List.mem_filter, List.mem_range]
      refine ⟨by omega, ?_⟩
      rw [Int.toNat_of_nonneg hx0]
      simpa using hx
  have hlen := hperm.length_eq
  rw [List.length_map] at hlen
  rw [hneg, ← hlen]
  omega

/-- C18 (as amended): on a rectangular table with at least one row, for an index
list of non-negative integers that contains an index of at least `Cols(t) - 1`
and whose mask is within the allocation limit of `make` (`(v + 1) * 8 ≤ maxAlloc`
for every index `v`, that is `max(idx) < 2^45`; the list itself has, as any Go
slice, fewer than `2^63` entries), `DropColumn` returns `Rows(t)` rows; row `r`
consists of the cells of row `r` of `t` at the positions below `Cols(t)` that do
not occur in `idx`, in increasing order; the indices of `idx` that are `Cols(t)`
or more change nothing; and every row of the result has `Cols(t)` minus the
number of distinct indices below `Cols(t)` cells. -/
theorem DropColumn_result (t : DataFrame) (idx : List Int) (hrows : t ≠ [])
    (hrect : ∀ row ∈ t, (row.length : Int) = Cols t)
    (hnn : ∀ v ∈ idx, 0 ≤ v) (hlast : ∃ v ∈ idx, Cols t - 1 ≤ v)
    (hmax : ∀ v ∈ idx, (v + 1) * 8 ≤ (maxAlloc : Int))
    (hlen : (idx.length : Int) ≤ 9223372036854775807) :
    ∃ res : DataFrame, DropColumn t idx = .ok res ∧
      Rows res = Rows t ∧
      res = t.map (DropColumn.keep idx (Cols t).toNat) ∧
      res = t.map (DropColumn.keep (idx.filter (fun v => decide (v < Cols t))) (Cols t).toNat) ∧
      ∀ row ∈ res, (row.length : Int)
        = Cols t - (((idx.filter (fun v => decide (v < Cols t))).dedup).length : Int) := by
  have hn := Cols_nonneg t
  have hcols : (((Cols t).toNat : Nat) : Int) = Cols t := Int.toNat_of_nonneg hn
  have hrect' : ∀ row ∈ t, row.length = (Cols t).toNat := by
    intro row hrow
    have := hrect row hrow
    omega
  cases idx with
  | nil =>
    obtain ⟨v, hv, _⟩ := hlast
    cases hv
  | cons a l =>
    obtain ⟨_, hm2, hm3⟩ := DropColumn.max_spec (a :: l) a
    have hmem : (a :: l).foldl (fun max value => if value > max then value else max) a
        ∈ a :: l := by
      rcases hm3 with h | h
      · rw [h]
        exact List.mem_cons_self a l
      · exact h
    have hM0 := hnn _ hmem
    have hMmax := hmax _ hmem
    have hMmax' := hMmax
    unfold maxAlloc at hMmax'
    have hw := wrapInt64_succ_of_bound _ hM0 (by omega)
    obtain ⟨v, hv, hvc⟩ := hlast
    have hvM := hm2 v hv
    have hin : ∀ w ∈ a :: l, 0 ≤ w ∧ w < wrapInt64
        ((a :: l).foldl (fun max value => if value > max then value else max) a + 1) := by
      intro w hw'
      have := hm2 w hw'
      have := hnn w hw'
      rw [hw]
      omega
    obtain ⟨arr', harr, hres⟩ := DropColumn.ok_of t a l (Cols t).toNat hrows hrect'
      (by rw [hw]; omega) (by rw [hw]; exact hMmax) hin (by rw [hw]; omega)
    obtain ⟨arr2, harr2, _, hchar⟩ := DropColumn.count_positive (a :: l)
      (List.replicate (wrapInt64
        ((a :: l).foldl (fun max value => if value > max then value else max) a + 1)).toNat 0)
      (by
        intro w hw'
        rw [List.length_replicate, Int.toNat_of_nonneg (by rw [hw]; omega)]
        exact hin w hw')
      (by
        intro x hx
        obtain ⟨_, rfl⟩ := List.mem_replicate.mp hx
        omega)
    rw [harr] at harr2
    injection harr2 with harr2
    subst harr2
    have hkeep : ∀ row : List String,
        ((List.range (Cols t).toNat).filter
            (fun p : Nat => decide (¬ 0 < (arr'[p]?).getD 0))).map
          (fun p : Nat => (row[p]?).getD "")
        = DropColumn.keep (a :: l) (Cols t).toNat row := by
      intro row
      unfold DropColumn.keep
      congr 1
      apply List.filter_congr
      intro p _
      have hzero : ¬ 0 < ((List.replicate (wrapInt64
          ((a :: l).foldl (fun max value => if value > max then value else max) a + 1)).toNat
            (0 : Int))[p]?).getD 0 := by
        rw [List.getElem?_replicate]
        split <;> simp
      have := hchar p
      simp only [hzero, false_or] at this
      simp [this]
    simp only [hkeep] at hres
    have hfilter : t.map (DropColumn.keep (a :: l) (Cols t).toNat)
        = t.map (DropColumn.keep ((a :: l).filter (fun v => decide (v < Cols t)))
            (Cols t).toNat) := by
      apply List.map_congr_left
      intro row _
      have := DropColumn.keep_filter (a :: l) (Cols t).toNat row
      rw [hcols] at this
      exact this.symm
    refine ⟨_, hres, by simp [Rows], rfl, hfilter, ?_⟩
    intro row hrow
    obtain ⟨row', _, rfl⟩ := List.mem_map.mp hrow
    have := DropColumn.keep_length (a :: l) (Cols t).toNat row' hnn
    rw [hcols] at this
    omega

/-- Witness for `DropColumn_result`: dropping columns 1 and 5 of a 2-by-3
table whose last column has index 2. -/
theorem DropColumn_result_witness :
    ∃ res : DataFrame, DropColumn [["a", "b", "c"], ["d", "e", "f"]] [5, 1, 1] = .ok res ∧
      Rows res = Rows [["a", "b", "c"], ["d", "e", "f"]] ∧
      res = ([["a", "b", "c"], ["d", "e", "f"]] : DataFrame).map
        (DropColumn.keep [5, 1, 1] (Cols [["a", "b", "c"], ["d", "e", "f"]]).toNat) ∧
      res = ([["a", "b", "c"], ["d", "e", "f"]] : DataFrame).map
        (DropColumn.keep (([5, 1, 1] : List Int).filter
            (fun v => decide (v < Cols [["a", "b", "c"], ["d", "e", "f"]])))
          (Cols [["a", "b", "c"], ["d", "e", "f"]]).toNat) ∧
      ∀ row ∈ res, (row.length : Int)
        = Cols [["a", "b", "c"], ["d", "e", "f"]]
          - (((([5, 1, 1] : List Int).filter
              (fun v => decide (v < Cols [["a", "b", "c"], ["d", "e", "f"]]))).dedup).length
            : Int) :=
  DropColumn_result [["a", "b", "c"], ["d", "e", "f"]] [5, 1, 1] (by decide) (by decide)
    (by decide) ⟨5, by decide, by decide⟩ (by decide) (by decide)

/-- C18 (counterexample): with the indices `1` and `2^63 - 1`, or `1` and
`2^45`, on a two-column table every hypothesis of the claim holds, and
`DropColumn` panics in `make` instead of returning the first column. -/
theorem DropColumn_largest_int_result :
    Cols [["a", "b"]] - 1 ≤ 9223372036854775807 ∧
      DropColumn [["a", "b"]] [1, 9223372036854775807] = .error .makeSliceLen ∧
      DropColumn [["a", "b"]] [1, 35184372088832] = .error .makeSliceLen := by
  decide

end rocketc
